import Mathlib

/-!
# Verification of the github-profile-card service

A shallow embedding of the core of the `github-profile-card` repository:

* `src/utils/format.ts` — `kFormat` (compact number formatting) and
  `escapeXml` (XML escaping), modelled exactly, including the binary64
  evaluation of `(num / 1000).toFixed(1)` that `kFormat` performs;
* `src/utils/themes.ts` — the theme table and `resolveColors`;
* `src/services/card.ts` — the proportional language-bar geometry of
  `renderCard`;
* `src/services/github.ts` — `getProfileData`: the pure paginated fetch
  body (pagination, aggregation, error taxonomy) and the cache /
  in-flight-deduplication protocol, modelled as a state machine whose
  steps are the synchronous segments of the event loop.

All definitions are executable and translated from the TypeScript source.
-/

/- ================================================================
   Part 1:  src/utils/format.ts
   ================================================================ -/

namespace Format

/-- Fuel-driven base-2 logarithm on `ℕ` (structural recursion so that the
kernel can evaluate it): `log2f f n` is `⌊log₂ n⌋` whenever `1 ≤ n < 2 ^ f`. -/
def log2f : ℕ → ℕ → ℕ
  | 0, _ => 0
  | f + 1, n => if n < 2 then 0 else log2f f (n / 2) + 1

/-- `⌊log₂ n⌋` for `n < 2 ^ 64`, which covers every value reachable from a
JavaScript number holding an integer (at most `2 ^ 53`). -/
def binade (n : ℕ) : ℕ := log2f 64 n

/-- The significand of the IEEE-754 binary64 value nearest to `n / d`,
scaled so that the double equals `rneSig n d p / 2 ^ p`: round-to-nearest,
ties to even, of `(n * 2 ^ p) / d`.  This is the exact result of the
JavaScript division `n / d` for `1 ≤ n / d`. -/
def rneSig (n d p : ℕ) : ℕ :=
  let N := n * 2 ^ p
  N / d + (if d < 2 * (N % d) ∨ (2 * (N % d) = d ∧ (N / d) % 2 = 1) then 1 else 0)

/-- The integer `m` such that `(n / d).toFixed(1)` (JavaScript) prints the
digits of `m` with a decimal point before the last digit: the double
`n / d` is formed (53-bit round-to-nearest-even), multiplied by 10 and
rounded to an integer, ties towards the larger integer (ECMA-262
`Number.prototype.toFixed`).  Valid for `d ≤ n` (value at least 1). -/
def round1 (n d : ℕ) : ℕ :=
  let p := 52 - binade (n / d)
  let s := rneSig n d p
  (20 * s + 2 ^ p) / 2 ^ (p + 1)

/-- One-decimal rendering of the integer `m` (`m` = value × 10) after the
`.replace(/\.0$/, '')` step of `kFormat`: `"x.y"` with a trailing `".0"`
stripped. -/
def oneDec (m : ℕ) : String :=
  if m % 10 = 0 then Nat.repr (m / 10)
  else Nat.repr (m / 10) ++ "." ++ Nat.repr (m % 10)

/-- `kFormat` from `src/utils/format.ts`:

```ts
export function kFormat(num: number): string {
  if (num >= 1_000_000) {
    return (num / 1_000_000).toFixed(1).replace(/\.0$/, '') + 'M';
  }
  if (num >= 1_000) {
    return (num / 1_000).toFixed(1).replace(/\.0$/, '') + 'k';
  }
  return String(num);
}
```

modelled for the non-negative integer inputs the card feeds it
(`stats.stars` etc.).  The division is carried out in binary64 exactly as
JavaScript does (`round1`). -/
def kFormat (num : ℕ) : String :=
  if 1000000 ≤ num then oneDec (round1 num 1000000) ++ "M"
  else if 1000 ≤ num then oneDec (round1 num 1000) ++ "k"
  else Nat.repr num

/-- One global `String.prototype.replace(/c/g, r)` pass over a string,
viewed as a list of characters: every occurrence of the single character
`c` is replaced by `r`. -/
def replaceAll (c : Char) (r : List Char) (s : List Char) : List Char :=
  s.flatMap fun d => if d = c then r else [d]

/-- `escapeXml` from `src/utils/format.ts`:

```ts
export function escapeXml(str: string): string {
  return str
    .replace(/&/g, '&amp;')
    .replace(/</g, '&lt;')
    .replace(/>/g, '&gt;')
    .replace(/"/g, '&quot;')
    .replace(/'/g, '&#39;');
}
```
-/
def escapeXml (s : List Char) : List Char :=
  replaceAll '\'' "&#39;".toList
    (replaceAll '"' "&quot;".toList
      (replaceAll '>' "&gt;".toList
        (replaceAll '<' "&lt;".toList
          (replaceAll '&' "&amp;".toList s))))

/-- The single-character-to-entity map that the five sequential `replace`
passes of `escapeXml` jointly implement (proved in `escapeXml_eq_flatMap`):
the entities introduced by one pass contain no character rewritten by a
later pass, so the passes compose to this per-character map. -/
def specialBlock (d : Char) : List Char :=
  if d = '&' then ['&', 'a', 'm', 'p', ';']
  else if d = '<' then ['&', 'l', 't', ';']
  else if d = '>' then ['&', 'g', 't', ';']
  else if d = '"' then ['&', 'q', 'u', 'o', 't', ';']
  else if d = '\'' then ['&', '#', '3', '9', ';']
  else [d]

/-- `leadsWith pre l` : `pre` is an initial segment of `l`. -/
def leadsWith : List Char → List Char → Bool
  | [], _ => true
  | _ :: _, [] => false
  | c :: cs, d :: ds => c = d && leadsWith cs ds

/-- One of the five entity tails `amp; lt; gt; quot; #39;` follows. -/
def entityTail (l : List Char) : Bool :=
  leadsWith ['a', 'm', 'p', ';'] l || leadsWith ['l', 't', ';'] l ||
    leadsWith ['g', 't', ';'] l || leadsWith ['q', 'u', 'o', 't', ';'] l ||
      leadsWith ['#', '3', '9', ';'] l

/-- Every `'&'` in the list begins one of the five XML entities. -/
def ampEscaped : List Char → Bool
  | [] => true
  | c :: rest => ((if c = '&' then entityTail rest else true) && ampEscaped rest)

end Format


/- ================================================================
   Part 2:  src/utils/themes.ts
   ================================================================ -/

namespace Themes

/-- The `Theme` interface of `src/utils/themes.ts`: one complete color
palette.  All hex values are stored without the `#` prefix. -/
structure Theme where
  bg : String
  title : String
  text : String
  icon : String
  border : String
deriving DecidableEq

/-- The flattened `themes` record of `src/utils/themes.ts`, in the
insertion order of the flattening loop (`default` first, then every
category's themes in declaration order).  All hex values are stored
without the `#` prefix, as in the source. -/
def themes : List (String × Theme) := [
  ("default", ⟨"fffefe", "2f80ed", "434d58", "4c71f2", "e4e2e2"⟩),
  ("dark", ⟨"151515", "fff", "9f9f9f", "79ff97", "2a2a2a"⟩),
  ("dracula", ⟨"282a36", "ff6e96", "f8f8f2", "bd93f9", "44475a"⟩),
  ("monokai", ⟨"272822", "f92672", "f8f8f2", "a6e22e", "3e3d32"⟩),
  ("nord", ⟨"2e3440", "88c0d0", "d8dee9", "81a1c1", "3b4252"⟩),
  ("github_dark", ⟨"0d1117", "58a6ff", "c9d1d9", "1f6feb", "21262d"⟩),
  ("slate", ⟨"0b1220", "e2e8f0", "94a3b8", "38bdf8", "1f2937"⟩),
  ("midnight", ⟨"0f172a", "38bdf8", "cbd5e1", "818cf8", "1e293b"⟩),
  ("highcontrast", ⟨"000", "e7f216", "fff", "00ffff", "333"⟩),
  ("pearl", ⟨"f7f7f5", "1f2328", "3d444d", "0969da", "e6e8eb"⟩),
  ("ice", ⟨"f0f9ff", "0369a1", "075985", "0ea5e9", "dbeafe"⟩),
  ("sand", ⟨"fbf7f0", "6b4e2e", "7a6754", "d97706", "eadfce"⟩),
  ("pastel_peach", ⟨"fff1f2", "fb7185", "7f1d1d", "fda4af", "ffe4e6"⟩),
  ("pastel_mint", ⟨"f0fdf4", "4ade80", "14532d", "86efac", "dcfce7"⟩),
  ("pastel_lavender", ⟨"f5f3ff", "a78bfa", "4c1d95", "c4b5fd", "ede9fe"⟩),
  ("pastel_lemon", ⟨"fefce8", "facc15", "713f12", "fde68a", "fef9c3"⟩),
  ("pastel_rose", ⟨"fff1f5", "f472b6", "831843", "f9a8d4", "fce7f3"⟩),
  ("mui_blue", ⟨"e3f2fd", "1976d2", "0d47a1", "42a5f5", "bbdefb"⟩),
  ("mui_indigo", ⟨"e8eaf6", "3f51b5", "1a237e", "5c6bc0", "c5cae9"⟩),
  ("mui_teal", ⟨"e0f2f1", "00796b", "004d40", "26a69a", "b2dfdb"⟩),
  ("mui_deep_purple", ⟨"ede7f6", "673ab7", "311b92", "9575cd", "d1c4e9"⟩),
  ("mui_orange", ⟨"fff3e0", "f57c00", "e65100", "ff9800", "ffe0b2"⟩),
  ("mui_red", ⟨"ffebee", "d32f2f", "b71c1c", "ef5350", "ffcdd2"⟩),
  ("vscode_dark_plus", ⟨"1e1e1e", "569cd6", "d4d4d4", "c586c0", "2d2d2d"⟩),
  ("vscode_light", ⟨"ffffff", "0066bf", "333333", "795e26", "e5e5e5"⟩),
  ("vscode_monokai_pro", ⟨"2d2a2e", "ff6188", "fcfcfa", "a9dc76", "403e41"⟩),
  ("vscode_night_owl", ⟨"011627", "82aaff", "d6deeb", "c792ea", "1d3b53"⟩),
  ("vscode_palenight", ⟨"292d3e", "c792ea", "a6accd", "89ddff", "3a3f58"⟩),
  ("twitter", ⟨"15202b", "1da1f2", "e1e8ed", "1da1f2", "38444d"⟩),
  ("discord", ⟨"2c2f33", "5865f2", "ffffff", "99aab5", "23272a"⟩),
  ("spotify", ⟨"121212", "1db954", "b3b3b3", "1ed760", "282828"⟩),
  ("github_light", ⟨"ffffff", "24292e", "57606a", "0969da", "d0d7de"⟩),
  ("youtube", ⟨"181818", "ff0000", "ffffff", "ff4e45", "303030"⟩),
  ("instagram", ⟨"1e1e1e", "e1306c", "f5f5f5", "fd1d1d", "2a2a2a"⟩),
  ("radical", ⟨"141321", "fe428e", "a9fef7", "f8d847", "2a2a40"⟩),
  ("cyberpunk", ⟨"14001f", "ff00ff", "00ffff", "fcee0c", "2a003f"⟩),
  ("synthwave", ⟨"2b213a", "e2e9ec", "e5289e", "ef8539", "3e2f5a"⟩),
  ("oceanic", ⟨"0c1e26", "00c2ff", "9be7ff", "00ffa3", "123844"⟩),
  ("mint", ⟨"0f1f1c", "5eead4", "99f6e4", "2dd4bf", "1b3a34"⟩),
  ("royal", ⟨"1a1a2e", "ffd700", "eaeaea", "8a2be2", "2e2e4d"⟩),
  ("gruvbox", ⟨"282828", "fabd2f", "ebdbb2", "fe8019", "3c3836"⟩),
  ("merko", ⟨"0a0f0b", "abd200", "68b587", "b7d364", "1a2f1a"⟩),
  ("forest", ⟨"0f1b17", "b7f7d9", "86a995", "34d399", "17332a"⟩),
  ("rose", ⟨"1a0f14", "ffd0dd", "e6b0c0", "fb7185", "2b1a22"⟩),
  ("sunset", ⟨"2a1a1f", "ff7a59", "ffd6c2", "ffb347", "40252b"⟩),
  ("lavender", ⟨"1e1b2e", "c084fc", "e9d5ff", "a78bfa", "312e4a"⟩),
  ("ember", ⟨"1a0f0f", "ff4500", "ffb3a7", "ff6347", "331a1a"⟩),
  ("tokyonight", ⟨"1a1b27", "70a5fd", "38bdae", "bf91f3", "2a2b3d"⟩),
  ("onedark", ⟨"282c34", "e4bf7a", "abb2bf", "8eb573", "3e4451"⟩),
  ("cobalt", ⟨"193549", "e683d9", "75eeb2", "0480ef", "2a4a6a"⟩),
  ("amoled_blue", ⟨"000000", "00bfff", "b3e5fc", "1e90ff", "0a0a0a"⟩),
  ("amoled_green", ⟨"000000", "00ff7f", "ccffcc", "00fa9a", "0d0d0d"⟩),
  ("amoled_purple", ⟨"000000", "bb86fc", "e0c3fc", "9d4edd", "121212"⟩),
  ("grayscale_light", ⟨"f5f5f5", "111111", "555555", "888888", "dddddd"⟩),
  ("grayscale_mid", ⟨"2b2b2b", "ffffff", "bbbbbb", "999999", "3c3c3c"⟩),
  ("grayscale_dark", ⟨"121212", "e0e0e0", "9e9e9e", "bdbdbd", "1f1f1f"⟩)]

/-- `themeCollections.default`, which the flattening loop also stores as
`themes['default']`. -/
def defaultTheme : Theme := ⟨"fffefe", "2f80ed", "434d58", "4c71f2", "e4e2e2"⟩

/-- The own-property part of the read `themes[name]`: lookup in the
flattened record itself.  Keys are unique (checked against the source),
so it is association-list lookup. -/
def themesOwn (name : String) : Option Theme :=
  (themes.find? (fun p => p.1 = name)).map (fun p => p.2)

/-- The property names every plain JavaScript object inherits from
`Object.prototype`.  `themes` is built from an object literal
(`const themes: Record<string, Theme> = {}`), so reading one of these
names on it yields the inherited member — a function, or for `__proto__`
the prototype object itself — which is truthy, rather than `undefined`. -/
def objectProtoNames : List String :=
  ["constructor", "hasOwnProperty", "isPrototypeOf", "propertyIsEnumerable",
    "toLocaleString", "toString", "valueOf", "__defineGetter__",
    "__defineSetter__", "__lookupGetter__", "__lookupSetter__", "__proto__"]

/-- The value of the property read `themes[name]`: an own property (one of
the 56 registered themes), else a truthy non-theme member inherited from
`Object.prototype` (whose color fields read as `undefined`), else
`undefined`. -/
inductive ThemeRead where
  | own (t : Theme)
  | protoMember
  | notFound
deriving DecidableEq

/-- The full prototype-chain lookup `themes[name]`: own properties shadow
the inherited ones. -/
def themesRead (name : String) : ThemeRead :=
  match themesOwn name with
  | some t => .own t
  | none => if name ∈ objectProtoNames then .protoMember else .notFound

/-- The JavaScript `x || y` idiom on an optional string: `undefined` and
the empty string are falsy. -/
def jsOr (o : Option String) (dflt : String) : String :=
  match o with
  | some s => if s = "" then dflt else s
  | none => dflt

/-- `x || y` on an optional string whose fallback may itself be
`undefined` (a color field read off a non-theme base object). -/
def jsOrU (o : Option String) (dflt : Option String) : Option String :=
  match o with
  | some s => if s = "" then dflt else some s
  | none => dflt

/-- Options accepted by `resolveColors` (all optional). -/
structure ResolveOpts where
  theme : Option String := none
  bg_color : Option String := none
  title_color : Option String := none
  text_color : Option String := none
  icon_color : Option String := none
  border_color : Option String := none

/-- What `resolveColors` actually returns at runtime.  Its TypeScript
annotation promises five strings, but when the base object is a member
inherited from `Object.prototype` every un-overridden field is
`undefined`, so the faithful codomain is five optional strings. -/
structure ResolvedColors where
  bg : Option String
  title : Option String
  text : Option String
  icon : Option String
  border : Option String
deriving DecidableEq

/-- `resolveColors` from `src/utils/themes.ts`:

```ts
const base = (opts.theme && themes[opts.theme]) || themes['default']!;
return {
  bg: opts.bg_color || base.bg,
  title: opts.title_color || base.title,
  text: opts.text_color || base.text,
  icon: opts.icon_color || base.icon,
  border: opts.border_color || base.border,
};
```

`opts.theme && themes[opts.theme]` is falsy when the theme option is
absent, the empty string, or a name that hits neither an own property
nor the prototype chain; in those cases `themes['default']` (that is,
`defaultTheme`) is used.  But when `opts.theme` names an inherited
`Object.prototype` member (for example `"constructor"`), the read is
truthy, the fallback does not fire, and `base` is a non-theme object
whose color fields are `undefined`. -/
def resolveColors (opts : ResolveOpts) : ResolvedColors :=
  let base : ThemeRead :=
    match opts.theme with
    | none => .own defaultTheme
    | some t =>
      if t = "" then .own defaultTheme
      else
        match themesRead t with
        | .own th => .own th
        | .protoMember => .protoMember
        | .notFound => .own defaultTheme
  let baseField : (Theme → String) → Option String := fun sel =>
    match base with
    | .own th => some (sel th)
    | _ => none
  { bg := jsOrU opts.bg_color (baseField (fun th => th.bg))
    title := jsOrU opts.title_color (baseField (fun th => th.title))
    text := jsOrU opts.text_color (baseField (fun th => th.text))
    icon := jsOrU opts.icon_color (baseField (fun th => th.icon))
    border := jsOrU opts.border_color (baseField (fun th => th.border)) }

end Themes


/- ================================================================
   Part 3:  src/services/card.ts  (language-bar geometry)
   ================================================================ -/

namespace Card

/-- `LanguageStat` from `src/types/index.ts`: language name, byte-size
weight and display color. -/
structure LanguageStat where
  name : String
  size : ℕ
  color : String
deriving DecidableEq

/-- Layout constants of `renderCard`: card width `W = 500`, padding
`P = 22`. -/
def W : ℚ := 500

/-- Padding. -/
def P : ℚ := 22

/-- `const barWidth = W - P * 2` — the language bar spans the full width
minus padding. -/
def barWidth : ℚ := W - P * 2

/-- `const totalSize = langs.reduce((sum, l) => sum + l.size, 0) || 1` —
a zero total is replaced by 1 to avoid division by zero. -/
def totalSize (langs : List LanguageStat) : ℚ :=
  let s : ℕ := (langs.map fun l => l.size).sum
  if s = 0 then 1 else (s : ℚ)

/-- The running-offset fold inside `langRects`: each language yields a
`<rect>` at `x = P + offset` of width `(lang.size / totalSize) * barWidth`,
and advances the offset by that width. -/
def segmentsGo (total : ℚ) (offset : ℚ) : List LanguageStat → List (ℚ × ℚ)
  | [] => []
  | l :: ls =>
    let w := ((l.size : ℚ) / total) * barWidth
    (P + offset, w) :: segmentsGo total (offset + w) ls

/-- The geometry (x position, width) of the language-bar `<rect>`s built by
`renderCard` (lines 56–66 of `src/services/card.ts`), in order. -/
def langSegments (langs : List LanguageStat) : List (ℚ × ℚ) :=
  segmentsGo (totalSize langs) 0 langs

end Card


/- ================================================================
   Part 4:  src/services/github.ts
   ================================================================ -/

namespace Github

/-- `node { color name }` of a language edge; `color` may be null. -/
structure LangNode where
  color : Option String
  name : String
deriving DecidableEq

/-- `edges { size node { color name } }` of `languages(first: 10, ...)`. -/
structure LangEdge where
  size : ℕ
  node : Option LangNode
deriving DecidableEq

/-- One element of `repositories.nodes`: `stargazers { totalCount }` and,
with the full query only, `languages { edges ... }`. -/
structure RepoNode where
  stargazers : ℕ
  languages : Option (List LangEdge)
deriving DecidableEq

/-- `pageInfo { hasNextPage endCursor }`. -/
structure PageInfo where
  hasNextPage : Bool
  endCursor : Option String
deriving DecidableEq

/-- `repositories(first: 100, ...)`. -/
structure Repositories where
  totalCount : ℕ
  pageInfo : PageInfo
  nodes : Option (List RepoNode)
deriving DecidableEq

/-- The `user` object of one GraphQL response page.  Count objects such as
`openPRs` are optional because the code reads them defensively
(`user.openPRs?.totalCount || 0`). -/
structure UserData where
  login : String
  name : Option String
  avatarUrl : String
  bio : Option String
  pronouns : Option String
  twitterUsername : Option String
  openPRs : Option ℕ
  closedPRs : Option ℕ
  mergedPRs : Option ℕ
  openIssues : Option ℕ
  closedIssues : Option ℕ
  commitContributions : Option ℕ
  repositories : Repositories
deriving DecidableEq

/-- The shape of one upstream HTTP exchange, as `getProfileData`
distinguishes them: a non-2xx status with its body text, a 2xx body with
a non-empty `errors` array (element messages may be missing), a 2xx body
with `data.user` null, or a proper `user` payload. -/
inductive UpstreamResponse where
  | httpError (status : ℕ) (text : String)
  | gqlErrors (msgs : List (Option String))
  | noUser
  | ok (user : UserData)
deriving DecidableEq

/-- The error taxonomy of `getProfileData` (each variant is one `throw`
site of the source):
`MissingCredentials` — `'GITHUB_TOKEN is missing. Set it in your .env file.'`;
`UpstreamAuthFailed` — status 401; `UpstreamRateLimited` — status 403;
`UpstreamError status text` — other non-ok status with the first 100 body
characters; `GraphQLFailed msg` — joined `errors` messages;
`SubjectNotFound` — `'User not found'`; `TooManyInFlight` — the in-flight
ceiling; `InternalNullUser` — models the `TypeError` the code would raise
reading `user.avatarUrl` had the loop run zero iterations (proved
unreachable: the loop always runs at least once). -/
inductive FetchError where
  | MissingCredentials
  | UpstreamAuthFailed
  | UpstreamRateLimited
  | UpstreamError (status : ℕ) (text : String)
  | GraphQLFailed (msg : String)
  | SubjectNotFound
  | TooManyInFlight
  | InternalNullUser
deriving DecidableEq

/-- One entry of the `langMap` accumulator (`Map<string, {size; color}>`,
entries listed in insertion order as a JavaScript `Map` iterates). -/
structure LangEntry where
  name : String
  size : ℕ
  color : String
deriving DecidableEq

/-- `Map.set` on `langMap`: update an existing key in place (JavaScript
`Map` keeps its position), else append at the end. -/
def upsertLang (m : List LangEntry) (name : String) (sz : ℕ) (color : String) :
    List LangEntry :=
  match m with
  | [] => [⟨name, sz, color⟩]
  | e :: rest =>
    if e.name = name then ⟨e.name, e.size + sz, e.color⟩ :: rest
    else e :: upsertLang rest name sz color

/-- Processing of one language edge:
`if (!edge.node || !edge.size) continue;` then accumulate, defaulting a
falsy color to `'#ccc'`. -/
def processEdge (m : List LangEntry) (edge : LangEdge) : List LangEntry :=
  match edge.node with
  | none => m
  | some node =>
    if edge.size = 0 then m
    else upsertLang m node.name edge.size (Themes.jsOr node.color "#ccc")

/-- The mutable state of the pagination loop of `getProfileData`
(lines 255–262): `langMap` is `none` when `includeLanguages` is false
(the source sets it to `null`). -/
structure LoopState where
  hasNextPage : Bool
  cursor : Option String
  user : Option UserData
  totalStars : ℕ
  langMap : Option (List LangEntry)
  pageCount : ℕ
deriving DecidableEq

/-- Loop-state initialisation (lines 255–261). -/
def initState (includeLanguages : Bool) : LoopState :=
  { hasNextPage := true, cursor := none, user := none, totalStars := 0,
    langMap := if includeLanguages then some [] else none, pageCount := 0 }

/-- `const maxPages = 10; // Prevent runaway pagination`. -/
def maxPages : ℕ := 10

/-- The per-repository aggregation (lines 311–329): stars accumulate, and
language edges are folded into `langMap` when it exists. -/
def processNodes (st : LoopState) (nodes : List RepoNode) : LoopState :=
  nodes.foldl
    (fun s repo =>
      { s with
        totalStars := s.totalStars + repo.stargazers,
        langMap := match s.langMap with
          | none => none
          | some m => some ((repo.languages.getD []).foldl processEdge m) })
    st

/-- `body.errors.map(e => e.message).filter(Boolean).join(' | ') ||
'GitHub API error'`. -/
def joinMsgs (msgs : List (Option String)) : String :=
  let m := " | ".intercalate ((msgs.filterMap id).filter (fun s => !(s == "")))
  if m = "" then "GitHub API error" else m

/-- The success branch of one loop iteration (lines 302–333), on a state
whose `pageCount` was already incremented: capture `user` from the first
page only, aggregate the page's repositories, then take `hasNextPage` and
`endCursor` from the page — with `hasNextPage` forced to `false` when the
page carried no repositories. -/
def applyOk (st : LoopState) (u : UserData) : LoopState :=
  let nodes := u.repositories.nodes.getD []
  let st1 := processNodes { st with user := some (st.user.getD u) } nodes
  { st1 with
    hasNextPage :=
      if nodes.length = 0 then false else u.repositories.pageInfo.hasNextPage,
    cursor := u.repositories.pageInfo.endCursor }

/-- Dispatch on one upstream response (lines 278–333). -/
def processResponse (st : LoopState) (resp : UpstreamResponse) :
    Except FetchError LoopState :=
  match resp with
  | .httpError status text =>
    if status = 401 then .error .UpstreamAuthFailed
    else if status = 403 then .error .UpstreamRateLimited
    else .error (.UpstreamError status (text.take 100))
  | .gqlErrors msgs => .error (.GraphQLFailed (joinMsgs msgs))
  | .noUser => .error .SubjectNotFound
  | .ok u => .ok (applyOk st u)

/-- The pagination `while` loop (lines 265–334) driven by an oracle giving
the upstream response to the `i`-th page request.  Returns the number of
page requests issued together with the outcome.  Fuel only realises
structural recursion: the loop itself is bounded by
`pageCount < maxPages`, and the fuel-0 branch is unreachable whenever
`maxPages - pageCount ≤ fuel` (`runPages` is always entered with
`fuel = maxPages` and `pageCount = 0`). -/
def runPages (oracle : ℕ → UpstreamResponse) :
    ℕ → LoopState → ℕ × Except FetchError LoopState
  | 0, st => (0, .ok st)
  | fuel + 1, st =>
    if st.hasNextPage = true ∧ st.pageCount < maxPages then
      match processResponse { st with pageCount := st.pageCount + 1 }
          (oracle st.pageCount) with
      | .error e => (1, .error e)
      | .ok st' =>
        let r := runPages oracle fuel st'
        (r.1 + 1, r.2)
    else (0, .ok st)

/-- Stable insertion into a size-descending list: the new element goes
before the first element whose size does not exceed it, so elements of
equal size keep their original relative order. -/
def insertDesc (x : LangEntry) : List LangEntry → List LangEntry
  | [] => [x]
  | y :: ys => if y.size ≤ x.size then x :: y :: ys else y :: insertDesc x ys

/-- `Array.from(langMap.entries()).sort((a, b) => b[1].size - a[1].size)`:
JavaScript's `sort` is stable (ES2019), and a stable sort under this
comparator is unique, so stable insertion sort models it exactly. -/
def sortDesc : List LangEntry → List LangEntry
  | [] => []
  | x :: xs => insertDesc x (sortDesc xs)

/-- Lines 337–342: sort by size descending, keep the top 5, shape into
`LanguageStat`s (empty when `langMap` was disabled). -/
def topLanguages (langMap : Option (List LangEntry)) : List Card.LanguageStat :=
  match langMap with
  | none => []
  | some m => ((sortDesc m).take 5).map fun e => ⟨e.name, e.size, e.color⟩

/-- `ProfileData.user` (`src/types/index.ts`). -/
structure UserProfile where
  login : String
  name : Option String
  avatarUrl : String
  avatarDataUrl : Option String
  bio : Option String
  pronouns : Option String
  twitter : Option String
deriving DecidableEq

/-- `ProfileData.stats`. -/
structure UserStats where
  stars : ℕ
  repos : ℕ
  prs : ℕ
  issues : ℕ
  commits : ℕ
deriving DecidableEq

/-- The cached/returned snapshot. -/
structure ProfileData where
  user : UserProfile
  stats : UserStats
  languages : List Card.LanguageStat
deriving DecidableEq

/-- The `profile` object construction (lines 347–368); `avatarDataUrl` is
the (non-fatal, oracle-supplied) result of `fetchAvatarDataUrl`. -/
def buildProfile (u : UserData) (avatarDataUrl : Option String)
    (totalStars : ℕ) (langMap : Option (List LangEntry)) : ProfileData :=
  { user := { login := u.login, name := u.name, avatarUrl := u.avatarUrl,
              avatarDataUrl := avatarDataUrl, bio := u.bio,
              pronouns := u.pronouns, twitter := u.twitterUsername }
    stats := { stars := totalStars,
               repos := u.repositories.totalCount,
               prs := u.openPRs.getD 0 + u.closedPRs.getD 0 + u.mergedPRs.getD 0,
               issues := u.openIssues.getD 0 + u.closedIssues.getD 0,
               commits := u.commitContributions.getD 0 }
    languages := topLanguages langMap }

/-- The body of the in-flight async closure (lines 247–391), as a pure
function of the configured token, the language flag, the upstream oracle
and the avatar-fetch outcome.  Returns the number of upstream page
requests issued and the outcome.  A missing token makes `getHeaders()`
throw during argument evaluation of the first `fetch`, so no request is
ever issued. -/
def fetchBody (token : Option String) (includeLanguages : Bool)
    (oracle : ℕ → UpstreamResponse) (avatarResult : Option String) :
    ℕ × Except FetchError ProfileData :=
  match token with
  | none => (0, .error .MissingCredentials)
  | some _ =>
    let r := runPages oracle maxPages (initState includeLanguages)
    match r.2 with
    | .error e => (r.1, .error e)
    | .ok st =>
      match st.user with
      | none => (r.1, .error .InternalNullUser)
      | some u => (r.1, .ok (buildProfile u avatarResult st.totalStars st.langMap))


/-- `repos.nodes || []` of one page. -/
def pageNodes (u : UserData) : List RepoNode := u.repositories.nodes.getD []

/-- The star contribution of one page: the sum of its repositories'
stargazer counts. -/
def pageStars (u : UserData) : ℕ := ((pageNodes u).map fun r => r.stargazers).sum

/-- The size one language edge contributes to the language `name` (edges
with no node contribute nothing; a zero size contributes zero whether or
not it is skipped). -/
def edgeSizeFor (name : String) (e : LangEdge) : ℕ :=
  match e.node with
  | none => 0
  | some nd => if nd.name = name then e.size else 0

/-- The size one repository contributes to the language `name`. -/
def repoSizeFor (name : String) (r : RepoNode) : ℕ :=
  ((r.languages.getD []).map (edgeSizeFor name)).sum

/-- The size one page contributes to the language `name`. -/
def pageSizeFor (name : String) (u : UserData) : ℕ :=
  ((pageNodes u).map (repoSizeFor name)).sum

/-- The accumulated size recorded for `name` in the `langMap` (0 when
absent). -/
def mapSizeFor (name : String) (m : List LangEntry) : ℕ :=
  match m.find? (fun e => e.name = name) with
  | some e => e.size
  | none => 0

/-- The fold of one page's language edges into the map (the inner loops of
lines 311–329). -/
def pageFold (u : UserData) (m : List LangEntry) : List LangEntry :=
  (pageNodes u).foldl (fun m r => (r.languages.getD []).foldl processEdge m) m

/-- Replay of `n` successful loop iterations (used to characterise a
successful `runPages` run; the non-`ok` branch is never taken there). -/
def applyPages (oracle : ℕ → UpstreamResponse) : ℕ → LoopState → LoopState
  | 0, st => st
  | k + 1, st =>
    match oracle st.pageCount with
    | .ok u => applyPages oracle k (applyOk { st with pageCount := st.pageCount + 1 } u)
    | _ => st

/-- A page response on which the loop continues: a proper payload that
reports a next page and carries at least one repository. -/
def contOk (r : UpstreamResponse) : Prop :=
  ∃ u, r = .ok u ∧ u.repositories.pageInfo.hasNextPage = true ∧ pageNodes u ≠ []

/-- A page response on which the loop stops without error: a proper
payload reporting no next page, or one with an empty repository list. -/
def stopOk (r : UpstreamResponse) : Prop :=
  ∃ u, r = .ok u ∧
    (u.repositories.pageInfo.hasNextPage = false ∨ pageNodes u = [])


/-- A one-page upstream fixture (used to witness the aggregation
theorems): one repository with 3 stars, a 5-byte `"TS"` edge and a
zero-size `"Zero"` edge, and no further page. -/
def samplePage : UserData where
  login := "alice"
  name := none
  avatarUrl := "a"
  bio := none
  pronouns := none
  twitterUsername := none
  openPRs := some 1
  closedPRs := some 2
  mergedPRs := none
  openIssues := none
  closedIssues := some 4
  commitContributions := some 7
  repositories :=
    { totalCount := 1
      pageInfo := { hasNextPage := false, endCursor := none }
      nodes := some
        [{ stargazers := 3
           languages := some
             [{ size := 5, node := some { color := none, name := "TS" } },
              { size := 0, node := some { color := some "c", name := "Zero" } }] }] }

/-- The snapshot the service builds from `samplePage`. -/
def sampleProfile : ProfileData :=
  buildProfile samplePage none 3 (some [⟨"TS", 5, "#ccc"⟩])

/- ----------------------------------------------------------------
   The cache / in-flight-deduplication protocol.

   `getProfileData` runs on a single-threaded event loop; its mutations
   of the module-level `cache` map and `inFlightCount` happen inside
   synchronous segments separated by `await` points.  One call executes
   TWO such segments.  The first (`stepCallStart`) runs from entry
   through the memory-cache read (lines 210–219) and suspends at
   `await getRedis()` (line 222) / `await redis.get(...)` (line 225).
   The second (`stepCallResume`) resumes with the shared-cache result
   and runs from the redis-hit handling (lines 226–234) through the
   dedup check (lines 237–238), the ceiling check and the launch, to the
   `return` at line 399 (the async body runs synchronously up to its
   first `await`, which is why a missing token resolves the whole body
   before line 394 stores the placeholder).  A third segment kind
   (`stepComplete`) resumes when the upstream fetch settles.  Segments
   of OTHER calls may interleave between a call's own two segments —
   exactly what defeats the deduplication (claim C1).  `stepCall` below
   is the special schedule with nothing interleaved: a lone call, or
   calls made strictly one after another (claims C2 and C3).  `now` is
   held fixed across the analysed window: the fetch timeouts (10 s /
   5 s) are far below the 30-minute TTL, so no entry expires while its
   fetch is pending.
   ---------------------------------------------------------------- -/

/-- Association-list read (JavaScript `Map.get` / unique-key object). -/
def alGet {κ α : Type} [DecidableEq κ] (m : List (κ × α)) (k : κ) : Option α :=
  (m.find? (fun p => p.1 = k)).map (fun p => p.2)

/-- Association-list write (JavaScript `Map.set`): replace in place or
append. -/
def alSet {κ α : Type} [DecidableEq κ] (m : List (κ × α)) (k : κ) (v : α) :
    List (κ × α) :=
  match m with
  | [] => [(k, v)]
  | (k', v') :: rest => if k' = k then (k, v) :: rest else (k', v') :: alSet rest k v

/-- Association-list delete (JavaScript `Map.delete`). -/
def alDelete {κ α : Type} [DecidableEq κ] (m : List (κ × α)) (k : κ) :
    List (κ × α) :=
  match m with
  | [] => []
  | (k', v') :: rest => if k' = k then rest else (k', v') :: alDelete rest k

/-- `CACHE_TTL_SECONDS = 30 * 60`. -/
def cacheTTLSeconds : ℕ := 30 * 60

/-- The TTL in milliseconds, as added to `Date.now()`. -/
def cacheTTLMs : ℕ := cacheTTLSeconds * 1000

/-- `MAX_IN_FLIGHT_REQUESTS = 100`. -/
def maxInFlight : ℕ := 100

/-- In-memory cache entry (`interface CacheEntry`): expiry plus either a
value or an in-flight promise (identified by number). -/
structure CacheEntry where
  expiresAt : ℕ
  value : Option ProfileData := none
  inFlight : Option ℕ := none
deriving DecidableEq

deriving instance DecidableEq for Except

/-- A promise created by `getProfileData`: the cache key its fetch serves
and its result once settled (`none` while pending). -/
structure PromiseInfo where
  key : String
  result : Option (Except FetchError ProfileData) := none
deriving DecidableEq

/-- The module-level mutable state of `src/services/github.ts` plus the
promise store. -/
structure SvcState where
  cache : List (String × CacheEntry)
  inFlightCount : ℕ
  promises : List (ℕ × PromiseInfo)
  nextId : ℕ
  now : ℕ
deriving DecidableEq

/-- The settled result of a promise, if any. -/
def promiseResult (s : SvcState) (pid : ℕ) :
    Option (Except FetchError ProfileData) :=
  (alGet s.promises pid).bind (fun i => i.result)

/-- `` `${username}:${includeLanguages ? 'langs' : 'nolangs'}` ``. -/
def mkCacheKey (username : String) (includeLanguages : Bool) : String :=
  username ++ ":" ++ (if includeLanguages then "langs" else "nolangs")

/-- `getCache` (lines 178–188): evicts a lazily-expired entry, yields a
value only when present and fresh. -/
def getCacheStep (s : SvcState) (key : String) : SvcState × Option ProfileData :=
  match alGet s.cache key with
  | none => (s, none)
  | some e =>
    if e.expiresAt ≤ s.now then ({ s with cache := alDelete s.cache key }, none)
    else (s, e.value)

/-- `setCache` (lines 191–196): stores a fresh value entry (no `inFlight`
field). -/
def setCacheStep (s : SvcState) (key : String) (v : ProfileData) : SvcState :=
  { s with cache :=
      alSet s.cache key ({ expiresAt := s.now + cacheTTLMs, value := some v } : CacheEntry) }

/-- What one `getProfileData` call hands back to its caller at the end of
its first synchronous segment. -/
inductive CallOutcome where
  | value (v : ProfileData)
  | promise (pid : ℕ)
  | thrown (e : FetchError)
deriving DecidableEq

/-- Lines 241–399 from the in-flight-ceiling check onwards.  With a token
present, the async body suspends at its first `await`; a fresh pending
promise is recorded and then (line 394) stored as the key's in-flight
placeholder.  With the token missing, the body runs synchronously to
rejection first — `cache.delete` in the `catch` fires while no entry
exists, and only afterwards does line 394 store the already-rejected
promise as the placeholder. -/
def launch (s : SvcState) (key : String) (token : Option String) :
    SvcState × CallOutcome :=
  if maxInFlight ≤ s.inFlightCount then (s, .thrown .TooManyInFlight)
  else
    let pid := s.nextId
    match token with
    | none =>
      let rejected : PromiseInfo := ⟨key, some (.error .MissingCredentials)⟩
      let s1 := { s with inFlightCount := s.inFlightCount + 1, nextId := s.nextId + 1 }
      let s2 := { s1 with cache := alDelete s1.cache key }
      let s3 := { s2 with inFlightCount := s2.inFlightCount - 1 }
      let s4 := { s3 with promises := alSet s3.promises pid rejected }
      let entry : CacheEntry := { expiresAt := s4.now + cacheTTLMs, inFlight := some pid }
      let s5 := { s4 with cache := alSet s4.cache key entry }
      (s5, .promise pid)
    | some _ =>
      let pending : PromiseInfo := ⟨key, none⟩
      let s1 := { s with inFlightCount := s.inFlightCount + 1, nextId := s.nextId + 1 }
      let s1' := { s1 with promises := alSet s1.promises pid pending }
      let entry : CacheEntry := { expiresAt := s1'.now + cacheTTLMs, inFlight := some pid }
      let s2 := { s1' with cache := alSet s1'.cache key entry }
      (s2, .promise pid)

/-- The first synchronous segment of a `getProfileData` call (lines
210–219): the memory-cache read, up to the suspension at
`await getRedis()`.  `some v` means the call returns the cached value at
line 219 and never resumes; `none` means it suspends and will run
`stepCallResume` later. -/
def stepCallStart (s : SvcState) (username : String) (includeLanguages : Bool) :
    SvcState × Option ProfileData :=
  getCacheStep s (mkCacheKey username includeLanguages)

/-- The second synchronous segment of a call (lines 226–399), resuming
with the shared-cache result (`redisView` is what `redis.get` produced —
`none` covers a disabled client, a miss, and a swallowed error): on a
hit, `setCache` and return the value; on a miss, the in-flight dedup
check against the CURRENT cache map (the memory value read in the first
segment is not re-checked), then the ceiling check and launch. -/
def stepCallResume (s : SvcState) (key : String) (token : Option String)
    (redisView : Option ProfileData) : SvcState × CallOutcome :=
  match redisView with
  | some v => (setCacheStep s key v, .value v)
  | none =>
    match alGet s.cache key with
    | some e =>
      match e.inFlight with
      | some p => (s, .promise p)
      | none => launch s key token
    | none => launch s key token

/-- A call whose two segments run back to back with no other segment
interleaved between the memory-cache read and the resume.  This is exact
for a single call, and for calls made strictly one after another;
concurrent calls interleave `stepCallStart` / `stepCallResume` steps
instead. -/
def stepCall (s : SvcState) (username : String) (includeLanguages : Bool)
    (token : Option String) (redisView : Option ProfileData) :
    SvcState × CallOutcome :=
  let r := stepCallStart s username includeLanguages
  match r.2 with
  | some v => (r.1, .value v)
  | none => stepCallResume r.1 (mkCacheKey username includeLanguages) token redisView

/-- The segment that runs when a launched fetch settles (lines 370–390):
on success both cache layers are written (`setCache`); on failure the
entry for the key is deleted; `finally` decrements the counter; the
promise settles.  A no-op on an unknown or already-settled promise. -/
def stepComplete (s : SvcState) (pid : ℕ)
    (res : Except FetchError ProfileData) : SvcState :=
  match alGet s.promises pid with
  | none => s
  | some info =>
    match info.result with
    | some _ => s
    | none =>
      let s1 := match res with
        | .ok profile => setCacheStep s info.key profile
        | .error _ => { s with cache := alDelete s.cache info.key }
      { s1 with inFlightCount := s1.inFlightCount - 1,
                promises := alSet s1.promises pid ⟨info.key, some res⟩ }


/-- `pid` is a pending fetch serving `key`. -/
def pendingFor (s : SvcState) (pid : ℕ) (key : String) : Prop :=
  alGet s.promises pid = some ⟨key, none⟩

/-- The deduplication race.  From an empty module state, three calls A, B,
C for `"alice"` (with languages, token set) interleave their event-loop
segments as follows:

 1. A, B and C each run their first segment: all three miss the memory
    cache (it is empty) and suspend at `await getRedis()`;
 2. A resumes with a shared-cache miss and launches fetch 0 — the
    in-flight placeholder `{expiresAt, inFlight: 0}` is stored;
 3. C resumes with a shared-cache hit (another instance populated the
    key meanwhile): its `setCache` (line 227) overwrites the placeholder
    with a value entry that has NO `inFlight` field;
 4. B resumes with a shared-cache miss: `cache.get(cacheKey)` at line
    237 finds the value entry, `existing?.inFlight` is `undefined`, so B
    passes the dedup check and launches fetch 1 while fetch 0 is still
    pending.

Every step is a segment the source really runs; the resulting state has
two pending upstream fetches for the single key `"alice:langs"`. -/
def raceState : SvcState :=
  (stepCallResume
    (stepCallResume
      (stepCallResume
        (stepCallStart
          (stepCallStart
            (stepCallStart ⟨[], 0, [], 0, 0⟩ "alice" true).1
            "alice" true).1
          "alice" true).1
        (mkCacheKey "alice" true) (some "t") none).1
      (mkCacheKey "alice" true) (some "t") (some sampleProfile)).1
    (mkCacheKey "alice" true) (some "t") none).1

end Github

/- ================================================================
   Theorems
   ================================================================ -/

namespace Format

example : kFormat 0 = "0" := by decide
example : kFormat 999 = "999" := by decide
example : kFormat 1000 = "1k" := by decide
example : kFormat 1500 = "1.5k" := by decide
example : kFormat 9999 = "10k" := by decide
example : kFormat 100000 = "100k" := by decide
example : kFormat 1000000 = "1M" := by decide
example : kFormat 1500000 = "1.5M" := by decide
example : kFormat 10000000 = "10M" := by decide
example : escapeXml "a & b".toList = "a &amp; b".toList := by decide
example : escapeXml "<script>".toList = "&lt;script&gt;".toList := by decide
example : escapeXml "&amp;".toList = "&amp;amp;".toList := by decide

theorem escapeXml_cons (d : Char) (t : List Char) :
    escapeXml (d :: t) = specialBlock d ++ escapeXml t := by
  by_cases h1 : d = '&'
  · subst h1; simp [escapeXml, replaceAll, specialBlock]
  by_cases h2 : d = '<'
  · subst h2; simp [escapeXml, replaceAll, specialBlock]
  by_cases h3 : d = '>'
  · subst h3; simp [escapeXml, replaceAll, specialBlock]
  by_cases h4 : d = '"'
  · subst h4; simp [escapeXml, replaceAll, specialBlock]
  by_cases h5 : d = '\''
  · subst h5; simp [escapeXml, replaceAll, specialBlock]
  simp [escapeXml, replaceAll, specialBlock, h1, h2, h3, h4, h5]

/-- The five sequential global replaces of `escapeXml` amount to one
per-character pass with `specialBlock`. -/
theorem escapeXml_eq_flatMap (s : List Char) : escapeXml s = s.flatMap specialBlock := by
  induction s with
  | nil => rfl
  | cons d t ih => rw [escapeXml_cons, List.flatMap_cons, ih]

/-- No raw `<`, `>`, `"`, `'` survives `escapeXml`. -/
theorem escapeXml_no_raw {s : List Char} {c : Char} (hc : c ∈ escapeXml s) :
    c ≠ '<' ∧ c ≠ '>' ∧ c ≠ '"' ∧ c ≠ '\'' := by
  rw [escapeXml_eq_flatMap, List.mem_flatMap] at hc
  obtain ⟨d, _, hcd⟩ := hc
  by_cases h1 : d = '&'
  · subst h1; simp [specialBlock] at hcd
    rcases hcd with h | h | h | h | h <;> subst h <;> refine ⟨?_, ?_, ?_, ?_⟩ <;> decide
  by_cases h2 : d = '<'
  · subst h2; simp [specialBlock] at hcd
    rcases hcd with h | h | h | h <;> subst h <;> refine ⟨?_, ?_, ?_, ?_⟩ <;> decide
  by_cases h3 : d = '>'
  · subst h3; simp [specialBlock] at hcd
    rcases hcd with h | h | h | h <;> subst h <;> refine ⟨?_, ?_, ?_, ?_⟩ <;> decide
  by_cases h4 : d = '"'
  · subst h4; simp [specialBlock] at hcd
    rcases hcd with h | h | h | h | h | h <;> subst h <;> refine ⟨?_, ?_, ?_, ?_⟩ <;> decide
  by_cases h5 : d = '\''
  · subst h5; simp [specialBlock] at hcd
    rcases hcd with h | h | h | h | h <;> subst h <;> refine ⟨?_, ?_, ?_, ?_⟩ <;> decide
  · simp [specialBlock, h1, h2, h3, h4, h5] at hcd
    subst hcd
    exact ⟨h2, h3, h4, h5⟩

theorem ampEscaped_block {rest : List Char} (d : Char)
    (h : ampEscaped rest = true) : ampEscaped (specialBlock d ++ rest) = true := by
  by_cases h1 : d = '&'
  · subst h1; simp [specialBlock, ampEscaped, entityTail, leadsWith, h]
  by_cases h2 : d = '<'
  · subst h2; simp [specialBlock, ampEscaped, entityTail, leadsWith, h]
  by_cases h3 : d = '>'
  · subst h3; simp [specialBlock, ampEscaped, entityTail, leadsWith, h]
  by_cases h4 : d = '"'
  · subst h4; simp [specialBlock, ampEscaped, entityTail, leadsWith, h]
  by_cases h5 : d = '\''
  · subst h5; simp [specialBlock, ampEscaped, entityTail, leadsWith, h]
  · simp [specialBlock, ampEscaped, h1, h2, h3, h4, h5, h]

/-- Every ampersand in `escapeXml`'s output begins one of the five
entities it introduces. -/
theorem escapeXml_ampEscaped (s : List Char) : ampEscaped (escapeXml s) = true := by
  rw [escapeXml_eq_flatMap]
  induction s with
  | nil => rfl
  | cons d t ih => rw [List.flatMap_cons]; exact ampEscaped_block d ih

/- Arithmetic facts about `kFormat`'s binary64 evaluation. -/

theorem log2f_spec : ∀ f n, 1 ≤ n → n < 2 ^ f →
    2 ^ log2f f n ≤ n ∧ n < 2 ^ (log2f f n + 1) := by
  intro f
  induction f with
  | zero => intro n h1 h2; omega
  | succ f ih =>
    intro n h1 h2
    rw [log2f]
    by_cases hn : n < 2
    · simp only [if_pos hn]
      constructor
      · simpa using h1
      · simpa using hn
    · simp only [if_neg hn]
      have h1' : 1 ≤ n / 2 := Nat.one_le_div_iff (by norm_num) |>.2 (by omega)
      have h2' : n / 2 < 2 ^ f := by
        rw [Nat.div_lt_iff_lt_mul (by norm_num)]
        calc n < 2 ^ (f + 1) := h2
        _ = 2 ^ f * 2 := by ring
      obtain ⟨hl, hr⟩ := ih (n / 2) h1' h2'
      constructor
      · calc 2 ^ (log2f f (n / 2) + 1) = 2 ^ log2f f (n / 2) * 2 := by ring
        _ ≤ n / 2 * 2 := by omega
        _ ≤ n := Nat.div_mul_le_self n 2
      · have : n / 2 + 1 ≤ 2 ^ (log2f f (n / 2) + 1) := hr
        calc n < (n / 2) * 2 + 2 := by omega
        _ ≤ 2 ^ (log2f f (n / 2) + 1) * 2 := by omega
        _ = 2 ^ (log2f f (n / 2) + 1 + 1) := by ring

/-- The `binade` of the rational `n / d`: for `d ≤ n < 2 ^ 53`,
`2 ^ binade (n / d) ≤ n / d < 2 ^ (binade (n / d) + 1)` over `ℚ`. -/
theorem binade_spec {n d : ℕ} (hd : 0 < d) (hdn : d ≤ n) (hn : n < 2 ^ 53) :
    (2 : ℚ) ^ binade (n / d) ≤ (n : ℚ) / d ∧
      (n : ℚ) / d < 2 ^ (binade (n / d) + 1) := by
  have hk1 : 1 ≤ n / d := (Nat.one_le_div_iff hd).2 hdn
  have hk2 : n / d < 2 ^ 64 := lt_of_le_of_lt (Nat.div_le_self n d)
    (lt_trans hn (by norm_num))
  obtain ⟨hl, hr⟩ := log2f_spec 64 (n / d) hk1 hk2
  have hdq : (0 : ℚ) < d := by exact_mod_cast hd
  have hfloor_le : ((n / d : ℕ) : ℚ) ≤ (n : ℚ) / d := by
    rw [le_div_iff hdq]
    exact_mod_cast Nat.div_mul_le_self n d
  have hlt_floor : (n : ℚ) / d < ((n / d : ℕ) : ℚ) + 1 := by
    rw [div_lt_iff hdq]
    have h1 : d * (n / d) + n % d = n := Nat.div_add_mod n d
    have h2 : n % d < d := Nat.mod_lt n hd
    have h4 : (n / d + 1) * d = d * (n / d) + d := by ring
    have h3 : n < (n / d + 1) * d := by linarith
    exact_mod_cast h3
  constructor
  · calc (2 : ℚ) ^ binade (n / d) ≤ ((n / d : ℕ) : ℚ) := by exact_mod_cast hl
    _ ≤ (n : ℚ) / d := hfloor_le
  · calc (n : ℚ) / d < ((n / d : ℕ) : ℚ) + 1 := hlt_floor
    _ ≤ 2 ^ (binade (n / d) + 1) := by exact_mod_cast hr

/-- Round-to-nearest-even of `N / d` is within `1 / 2` of `N / d`. -/
theorem rneSig_err {n d : ℕ} (hd : 0 < d) (p : ℕ) :
    |(rneSig n d p : ℚ) - (n * 2 ^ p : ℕ) / d| ≤ 1 / 2 := by
  have hdq : (0 : ℚ) < d := by exact_mod_cast hd
  set N := n * 2 ^ p with hN
  have hsplit : (N : ℚ) / d = ((N / d : ℕ) : ℚ) + ((N % d : ℕ) : ℚ) / d := by
    have : (N : ℚ) = ((d * (N / d) + N % d : ℕ) : ℚ) := by
      exact_mod_cast (Nat.div_add_mod N d).symm
    rw [this]
    push_cast
    field_simp
    ring
  have hr_lt : ((N % d : ℕ) : ℚ) / d < 1 := by
    rw [div_lt_one hdq]
    exact_mod_cast Nat.mod_lt N hd
  have hr_nonneg : (0 : ℚ) ≤ ((N % d : ℕ) : ℚ) / d := by positivity
  simp only [rneSig, ← hN]
  by_cases hc : d < 2 * (N % d) ∨ (2 * (N % d) = d ∧ (N / d) % 2 = 1)
  · simp only [if_pos hc]
    have h2r : d ≤ 2 * (N % d) := by rcases hc with h | ⟨h, _⟩ <;> omega
    have : (1 : ℚ) / 2 ≤ ((N % d : ℕ) : ℚ) / d := by
      rw [div_le_div_iff (by norm_num) hdq]
      have hc : (d : ℚ) ≤ 2 * ((N % d : ℕ) : ℚ) := by exact_mod_cast h2r
      linarith
    push_cast
    rw [hsplit]
    rw [abs_le]
    constructor <;> [linarith; linarith]
  · simp only [if_neg hc]
    have h2r : 2 * (N % d) ≤ d := by
      by_contra h
      exact hc (Or.inl (by omega))
    have : ((N % d : ℕ) : ℚ) / d ≤ 1 / 2 := by
      rw [div_le_div_iff hdq (by norm_num)]
      have hc : 2 * ((N % d : ℕ) : ℚ) ≤ (d : ℚ) := by exact_mod_cast h2r
      linarith
    push_cast
    rw [hsplit]
    rw [abs_le]
    constructor <;> [linarith; linarith]

/-- The binary64 result of the JavaScript division `n / d` (as computed
inside `round1`) is within `2 ^ J / 2 ^ 54` of the exact quotient,
provided `n / d` lies in `[1, 2 ^ J)` with `J ≤ 53`. -/
theorem fl_err {n d J : ℕ} (hd : 0 < d) (hdn : d ≤ n) (hn : n < 2 ^ 53)
    (hJ53 : J ≤ 53) (hq : (n : ℚ) / d < 2 ^ J) :
    |(rneSig n d (52 - binade (n / d)) : ℚ) / 2 ^ (52 - binade (n / d)) -
        (n : ℚ) / d| ≤ 2 ^ J / 2 ^ 54 := by
  obtain ⟨hb1, hb2⟩ := binade_spec hd hdn hn
  set j := binade (n / d) with hj
  have hjJ : j < J := by
    have h2 : (2 : ℚ) ^ j < 2 ^ J := lt_of_le_of_lt hb1 hq
    exact_mod_cast (Nat.pow_lt_pow_iff_right (a := 2) (by norm_num)).1
      (by exact_mod_cast h2)
  have hj52 : j ≤ 52 := by omega
  set p := 52 - j with hp
  have hp2 : (2 : ℚ) ^ p * 2 ^ j = 2 ^ 52 := by
    rw [← pow_add]
    congr 1
    omega
  have hppos : (0 : ℚ) < 2 ^ p := by positivity
  have herr := rneSig_err (n := n) (p := p) hd
  have hNd : ((n * 2 ^ p : ℕ) : ℚ) / d = (n : ℚ) / d * 2 ^ p := by
    push_cast
    ring
  rw [hNd] at herr
  have key : |(rneSig n d p : ℚ) / 2 ^ p - (n : ℚ) / d| ≤ 1 / 2 / 2 ^ p := by
    have : (rneSig n d p : ℚ) / 2 ^ p - (n : ℚ) / d =
        ((rneSig n d p : ℚ) - (n : ℚ) / d * 2 ^ p) / 2 ^ p := by
      field_simp
      ring
    rw [this, abs_div, abs_of_pos hppos]
    gcongr
  calc |(rneSig n d p : ℚ) / 2 ^ p - (n : ℚ) / d| ≤ 1 / 2 / 2 ^ p := key
  _ ≤ 2 ^ J / 2 ^ 54 := by
      rw [div_le_div_iff hppos (by positivity)]
      have h1 : (2 : ℚ) ^ (j + 1) ≤ 2 ^ J := by
        exact_mod_cast Nat.pow_le_pow_right (by norm_num) (by omega : j + 1 ≤ J)
      calc (1 : ℚ) / 2 * 2 ^ 54 = 2 ^ 53 := by norm_num
      _ = 2 ^ p * 2 ^ j * 2 := by rw [hp2]; norm_num
      _ = 2 ^ p * 2 ^ (j + 1) := by ring
      _ ≤ 2 ^ p * 2 ^ J := by nlinarith
      _ = 2 ^ J * 2 ^ p := by ring


/-- Core rounding step: if `x` is within `1 / D` of `N / D` (with `D` even
and `N / D ≥ 1`), then round-half-up of `x` is within `1 / 2` of `N / D`.
This is where the tie analysis of `toFixed(1)` happens: at an exact tie
(`D ∣ 2 N + D`) the floating-point value may fall on either side, but both
neighbouring tenths are within `1 / 2`. -/
theorem floor_half_near {N D : ℕ} {x : ℚ} (hD : 0 < D) (hD2 : 2 * (D / 2) = D)
    (hDN : D ≤ N) (hx : 0 ≤ x) (h : |x - (N : ℚ) / D| < 1 / D) :
    |((⌊x + 1 / 2⌋₊ : ℕ) : ℚ) - (N : ℚ) / D| ≤ 1 / 2 := by
  have hDq : (0 : ℚ) < D := by exact_mod_cast hD
  set M := N + D / 2 with hM
  have hhalf : ((D / 2 : ℕ) : ℚ) = (D : ℚ) / 2 := by
    have hc0 : ((2 * (D / 2) : ℕ) : ℚ) = (D : ℚ) := by exact_mod_cast hD2
    push_cast at hc0
    linarith
  have hMq : (M : ℚ) / D = (N : ℚ) / D + 1 / 2 := by
    have hMc : (M : ℚ) = (N : ℚ) + (D : ℚ) / 2 := by
      rw [hM]
      push_cast
      rw [hhalf]
    rw [hMc, add_div]
    congr 1
    rw [div_div, mul_comm, ← div_div, div_self (ne_of_gt hDq)]
  have habs := abs_lt.1 h
  set K := M / D with hK
  have hKsplit : (D * K + M % D = M) := Nat.div_add_mod M D
  have hK1 : 1 ≤ K := (Nat.one_le_div_iff hD).2 (by omega)
  have hmod_lt : M % D < D := Nat.mod_lt M hD
  have hMsplit : (M : ℚ) / D = (K : ℚ) + ((M % D : ℕ) : ℚ) / D := by
    have hcast : (M : ℚ) = (D : ℚ) * K + ((M % D : ℕ) : ℚ) := by exact_mod_cast hKsplit.symm
    rw [hcast]
    field_simp
    ring
  by_cases hr : M % D = 0
  · -- exact tie: N / D = K - 1 / 2; floor is K - 1 or K, both at distance 1 / 2
    have hMq0 : (M : ℚ) / D = (K : ℚ) := by rw [hMsplit, hr]; push_cast; ring
    have ht : (N : ℚ) / D = (K : ℚ) - 1 / 2 := by
      have := hMq.symm.trans hMq0
      linarith
    have hub : x + 1 / 2 < (K : ℚ) + 1 := by
      have h1D : 1 / (D : ℚ) ≤ 1 := by
        rw [div_le_one hDq]
        exact_mod_cast hD
      linarith [habs.2]
    have hlb : (K : ℚ) - 1 < x + 1 / 2 := by
      have h1D : 1 / (D : ℚ) ≤ 1 := by
        rw [div_le_one hDq]
        exact_mod_cast hD
      linarith [habs.1]
    have hfl_le : ⌊x + 1 / 2⌋₊ ≤ K := by
      have := Nat.floor_lt (by linarith : (0 : ℚ) ≤ x + 1 / 2) |>.2
        (by exact_mod_cast hub : x + 1 / 2 < ((K + 1 : ℕ) : ℚ))
      omega
    have hfl_ge : K - 1 ≤ ⌊x + 1 / 2⌋₊ := by
      apply Nat.le_floor
      have : ((K - 1 : ℕ) : ℚ) = (K : ℚ) - 1 := by
        have : (1 : ℕ) ≤ K := hK1
        push_cast [Nat.cast_sub this]
        ring
      rw [this]
      linarith
    have hcases : ⌊x + 1 / 2⌋₊ = K - 1 ∨ ⌊x + 1 / 2⌋₊ = K := by omega
    rcases hcases with hfl | hfl <;> rw [hfl, ht]
    · have hc : ((K - 1 : ℕ) : ℚ) = (K : ℚ) - 1 := by
        rw [Nat.cast_sub hK1, Nat.cast_one]
      rw [hc, abs_le]
      constructor <;> linarith
    · rw [abs_le]
      constructor <;> linarith
  · -- no tie: floor equals K and N / D = K + r / D - 1 / 2 with 1 ≤ r ≤ D - 1
    have hr1 : 1 ≤ M % D := by omega
    have hrq1 : 1 / (D : ℚ) ≤ ((M % D : ℕ) : ℚ) / D := by
      gcongr
      exact_mod_cast hr1
    have hrq2 : ((M % D : ℕ) : ℚ) / D ≤ 1 - 1 / D := by
      rw [div_le_iff hDq]
      have : ((M % D : ℕ) : ℚ) ≤ (D : ℚ) - 1 := by
        have : M % D ≤ D - 1 := by omega
        have hcast : ((M % D : ℕ) : ℚ) ≤ ((D - 1 : ℕ) : ℚ) := by exact_mod_cast this
        rwa [Nat.cast_sub (by omega : 1 ≤ D), Nat.cast_one] at hcast
      calc ((M % D : ℕ) : ℚ) ≤ (D : ℚ) - 1 := this
      _ = (1 - 1 / D) * D := by field_simp
    have hxK : (K : ℚ) ≤ x + 1 / 2 ∧ x + 1 / 2 < (K : ℚ) + 1 := by
      have he : x + 1 / 2 - (M : ℚ) / D = x - (N : ℚ) / D := by linarith [hMq]
      constructor
      · have : (M : ℚ) / D - 1 / D ≥ (K : ℚ) := by rw [hMsplit]; linarith
        linarith [habs.1]
      · have : (M : ℚ) / D + 1 / D ≤ (K : ℚ) + 1 := by rw [hMsplit]; linarith
        linarith [habs.2]
    have hfl : ⌊x + 1 / 2⌋₊ = K := by
      rw [Nat.floor_eq_iff (by linarith [hxK.1] : (0 : ℚ) ≤ x + 1 / 2)]
      exact ⟨by exact_mod_cast hxK.1, by exact_mod_cast hxK.2⟩
    rw [hfl]
    have ht : (N : ℚ) / D = (K : ℚ) + ((M % D : ℕ) : ℚ) / D - 1 / 2 := by
      rw [← hMsplit]
      linarith [hMq]
    rw [ht, abs_le]
    have hDinv : 0 < 1 / (D : ℚ) := by positivity
    constructor <;> [linarith [hrq2]; linarith [hrq1]]

/-- `round1 n d` (the integer printed by `(n / d).toFixed(1)`) is within
`1 / 20` of the exact value `n / d` once divided by ten: the JavaScript
computation rounds `n / d` to a nearest tenth. -/
theorem round1_near {n d D J : ℕ} (hD : 0 < D) (hdD : d = 10 * D)
    (hD2 : 2 * (D / 2) = D) (hdn : d ≤ n) (hn : n < 2 ^ 53) (hJ53 : J ≤ 53)
    (hq : (n : ℚ) / d < 2 ^ J) (hgap : 10 * ((2 : ℚ) ^ J / 2 ^ 54) < 1 / D) :
    |(round1 n d : ℚ) / 10 - (n : ℚ) / d| ≤ 1 / 20 := by
  have hd : 0 < d := by omega
  have hDq : (0 : ℚ) < D := by exact_mod_cast hD
  have herr := fl_err hd hdn hn hJ53 hq
  set j := binade (n / d) with hj
  set p := 52 - j with hp
  set s := rneSig n d p with hs
  have hfloor : round1 n d = ⌊10 * ((s : ℚ) / 2 ^ p) + 1 / 2⌋₊ := by
    rw [round1, ← hj, ← hp, ← hs, ← Nat.floor_div_eq_div (α := ℚ)]
    congr 1
    push_cast
    rw [pow_succ]
    have h2p : ((2 : ℚ) ^ p) ≠ 0 := by positivity
    field_simp
    ring
  have hD0 : (D : ℚ) ≠ 0 := ne_of_gt hDq
  have hnD : (n : ℚ) / D = 10 * ((n : ℚ) / d) := by
    rw [hdD]
    push_cast
    field_simp
    ring
  have hxt : |10 * ((s : ℚ) / 2 ^ p) - (n : ℚ) / D| < 1 / D := by
    have heq : 10 * ((s : ℚ) / 2 ^ p) - (n : ℚ) / D =
        10 * ((s : ℚ) / 2 ^ p - (n : ℚ) / d) := by
      rw [hnD]
      ring
    rw [heq, abs_mul, abs_of_pos (by norm_num : (0 : ℚ) < 10)]
    calc (10 : ℚ) * |(s : ℚ) / 2 ^ p - (n : ℚ) / d| ≤ 10 * (2 ^ J / 2 ^ 54) := by
          linarith [herr]
    _ < 1 / D := hgap
  have hx0 : (0 : ℚ) ≤ 10 * ((s : ℚ) / 2 ^ p) := by positivity
  have hDN : D ≤ n := le_trans (by omega) hdn
  have hcore := floor_half_near (N := n) hD hD2 hDN hx0 hxt
  rw [hfloor]
  have hsplit : ((⌊10 * ((s : ℚ) / 2 ^ p) + 1 / 2⌋₊ : ℕ) : ℚ) / 10 - (n : ℚ) / d =
      (((⌊10 * ((s : ℚ) / 2 ^ p) + 1 / 2⌋₊ : ℕ) : ℚ) - (n : ℚ) / D) / 10 := by
    rw [hnD]
    ring
  rw [hsplit, abs_div, abs_of_pos (by norm_num : (0 : ℚ) < 10)]
  linarith [hcore]

theorem kFormat_eq_small {n : ℕ} (h : n < 1000) : kFormat n = Nat.repr n := by
  rw [kFormat, if_neg (by omega), if_neg (by omega)]

theorem kFormat_eq_mid {n : ℕ} (h1 : 1000 ≤ n) (h2 : n < 1000000) :
    kFormat n = oneDec (round1 n 1000) ++ "k" := by
  rw [kFormat, if_neg (by omega), if_pos h1]

theorem kFormat_eq_big {n : ℕ} (h : 1000000 ≤ n) :
    kFormat n = oneDec (round1 n 1000000) ++ "M" := by
  rw [kFormat, if_pos h]

end Format

/- ================================================================
   Claims
   ================================================================ -/

/-- C4 counterexample.  The claim says the output of `escapeXml` contains
none of the raw characters `& < > " '` and that an already-escaped
ampersand entity is not double-escaped in a single pass.  Both parts fail:
`escapeXml "<"` is `"&lt;"`, which contains a raw `'&'`, and
`escapeXml "&amp;"` is `"&amp;amp;"` — the `'&'` of the entity is escaped
again. -/
theorem claim_C4_counterexample :
    ('<' ∈ "<".toList ∧ '&' ∈ Format.escapeXml "<".toList) ∧
      Format.escapeXml "&amp;".toList = "&amp;amp;".toList := by decide

/-- C4, amended.  For every input string, `escapeXml` produces output with
no raw `<`, `>`, `"`, `'`; every `'&'` of the output begins one of the
five entities `&amp; &lt; &gt; &quot; &#39;`; and escaping a string that
already contains the entity `"&amp;"` re-escapes its ampersand, yielding
`"&amp;amp;"` (there is no re-escape detection). -/
theorem claim_C4_escapeXml_amended :
    (∀ (s : List Char) (c : Char), c ∈ Format.escapeXml s →
        c ≠ '<' ∧ c ≠ '>' ∧ c ≠ '"' ∧ c ≠ '\'') ∧
      (∀ s : List Char, Format.ampEscaped (Format.escapeXml s) = true) ∧
      Format.escapeXml "&amp;".toList = "&amp;amp;".toList :=
  ⟨fun _ _ hc => Format.escapeXml_no_raw hc, Format.escapeXml_ampEscaped, by decide⟩

/-- C4 witness: the amended theorem applied at the concrete input `"<"`
and the character `'&'` of its escaped output. -/
theorem claim_C4_escapeXml_amended_witness :
    '&' ≠ '<' ∧ '&' ≠ '>' ∧ '&' ≠ '"' ∧ '&' ≠ '\'' :=
  claim_C4_escapeXml_amended.1 "<".toList '&' (by decide)

/-- C5.  `kFormat` maps every `n < 1000` to the plain decimal string;
every `1000 ≤ n < 10 ^ 6` to `n / 1000` rounded to one decimal place
(within one twentieth, i.e. a nearest tenth — at an exact half the
binary64 representation decides the direction) with a trailing `".0"`
stripped and suffixed `"k"`; every `n ≥ 10 ^ 6` likewise over
`n / 10 ^ 6` suffixed `"M"`; and the spec's six sample values hold.
The bound `n < 2 ^ 53` is where a JavaScript number holds an exact
integer. -/
theorem claim_C5_kFormat (n : ℕ) (hn : n < 2 ^ 53) :
    (n < 1000 → Format.kFormat n = Nat.repr n) ∧
    (1000 ≤ n → n < 1000000 → ∃ m : ℕ,
        |(m : ℚ) / 10 - (n : ℚ) / 1000| ≤ 1 / 20 ∧
          Format.kFormat n = Format.oneDec m ++ "k") ∧
    (1000000 ≤ n → ∃ m : ℕ,
        |(m : ℚ) / 10 - (n : ℚ) / 1000000| ≤ 1 / 20 ∧
          Format.kFormat n = Format.oneDec m ++ "M") ∧
    (Format.kFormat 999 = "999" ∧ Format.kFormat 1000 = "1k" ∧
      Format.kFormat 1500 = "1.5k" ∧ Format.kFormat 9999 = "10k" ∧
      Format.kFormat 1000000 = "1M" ∧ Format.kFormat 1500000 = "1.5M") := by
  refine ⟨fun h => Format.kFormat_eq_small h, fun h1 h2 => ?_, fun h => ?_, by decide⟩
  · refine ⟨Format.round1 n 1000, ?_, Format.kFormat_eq_mid h1 h2⟩
    have hq : (n : ℚ) / 1000 < 2 ^ 10 := by
      rw [div_lt_iff (by norm_num : (0 : ℚ) < 1000)]
      have : (n : ℚ) < 1000000 := by exact_mod_cast h2
      norm_num
      linarith
    exact Format.round1_near (D := 100) (by norm_num) (by norm_num) (by norm_num)
      h1 hn (by norm_num) hq (by norm_num)
  · refine ⟨Format.round1 n 1000000, ?_, Format.kFormat_eq_big h⟩
    have hq : (n : ℚ) / 1000000 < 2 ^ 34 := by
      rw [div_lt_iff (by norm_num : (0 : ℚ) < 1000000)]
      have : (n : ℚ) < 2 ^ 53 := by exact_mod_cast hn
      norm_num
      linarith
    exact Format.round1_near (D := 100000) (by norm_num) (by norm_num) (by norm_num)
      h hn (by norm_num) hq (by norm_num)

/-- C5 witness: the theorem applied at `n = 1500`. -/
theorem claim_C5_kFormat_witness :
    1500 < 2 ^ 53 ∧ Format.kFormat 1500 = "1.5k" :=
  ⟨by norm_num, (claim_C5_kFormat 1500 (by norm_num)).2.2.2.2.2.1⟩

/-- A theme name that hits neither an own property of `themes` nor an
inherited `Object.prototype` member does fall back to the complete
default palette — the fallback the code's comment promises works for
every name off the prototype chain. -/
theorem resolveColors_default_fallback (t : String)
    (hown : Themes.themesOwn t = none) (hproto : t ∉ Themes.objectProtoNames) :
    Themes.resolveColors { theme := some t } =
      ⟨some Themes.defaultTheme.bg, some Themes.defaultTheme.title,
        some Themes.defaultTheme.text, some Themes.defaultTheme.icon,
        some Themes.defaultTheme.border⟩ := by
  by_cases hte : t = "" <;>
    simp [Themes.resolveColors, Themes.themesRead, Themes.jsOrU, hown, hproto, hte]

/-- C10, evaluated at the failing input.  `"constructor"` names no
registered theme (`themesOwn` misses), yet the plain-object read
`themes['constructor']` finds the inherited, truthy
`Object.prototype.constructor`, so the documented fallback to the
default theme does not fire and every un-overridden color is
`undefined` — unlike a genuinely unknown name such as `"not_a_theme"`,
which does yield the complete default palette.  A non-empty override
still wins for its own field, leaving the other four `undefined`. -/
theorem claim_C10_protoLeak :
    Themes.themesOwn "constructor" = none ∧
    Themes.themesRead "constructor" = .protoMember ∧
    Themes.resolveColors { theme := some "constructor" } =
      ⟨none, none, none, none, none⟩ ∧
    Themes.resolveColors { theme := some "not_a_theme" } =
      ⟨some "fffefe", some "2f80ed", some "434d58", some "4c71f2",
        some "e4e2e2"⟩ ∧
    Themes.resolveColors { theme := some "constructor", bg_color := some "ff0000" } =
      ⟨some "ff0000", none, none, none, none⟩ := by decide

namespace Card

theorem segmentsGo_map_snd (total offset : ℚ) (ls : List LanguageStat) :
    (segmentsGo total offset ls).map Prod.snd =
      ls.map fun l => ((l.size : ℚ) / total) * barWidth := by
  induction ls generalizing offset with
  | nil => rfl
  | cons l ls ih => simp [segmentsGo, ih]

theorem segmentsGo_length (total offset : ℚ) (ls : List LanguageStat) :
    (segmentsGo total offset ls).length = ls.length := by
  induction ls generalizing offset with
  | nil => rfl
  | cons l ls ih => simp [segmentsGo, ih]

theorem segmentsGo_get_fst (total : ℚ) (ls : List LanguageStat) :
    ∀ (offset : ℚ) (i : ℕ) (h : i < (segmentsGo total offset ls).length),
      ((segmentsGo total offset ls).get ⟨i, h⟩).fst =
        P + offset + (((segmentsGo total offset ls).map Prod.snd).take i).sum := by
  induction ls with
  | nil => intro offset i h; simp [segmentsGo] at h
  | cons l ls ih =>
    intro offset i h
    match i with
    | 0 => simp [segmentsGo]
    | j + 1 =>
      have hj : j < (segmentsGo total (offset + (l.size : ℚ) / total * barWidth) ls).length := by
        simpa [segmentsGo] using h
      have := ih (offset + (l.size : ℚ) / total * barWidth) j hj
      simp only [segmentsGo, List.get_cons_succ, List.map_cons, List.take_succ_cons,
        List.sum_cons] at this ⊢
      rw [this]
      ring

end Card

/-- C7.  In `renderCard`'s language bar: each segment's width is the
language's share of the total byte-size times the bar width; segment `i`
starts at `P` plus the sum of the widths before it (left-to-right running
offset, in the given order); a zero total is treated as `1`; and for two
languages of sizes 7000 and 3000 the widths are `7/10` and `3/10` of the
bar width — ratio 7 : 3. -/
theorem claim_C7_langBar :
    (∀ langs : List Card.LanguageStat,
      (Card.langSegments langs).map Prod.snd =
        langs.map fun l => ((l.size : ℚ) / Card.totalSize langs) * Card.barWidth) ∧
    (∀ (langs : List Card.LanguageStat) (i : ℕ)
        (h : i < (Card.langSegments langs).length),
      ((Card.langSegments langs).get ⟨i, h⟩).fst =
        Card.P + (((Card.langSegments langs).map Prod.snd).take i).sum) ∧
    (∀ langs : List Card.LanguageStat,
      (langs.map fun l => l.size).sum = 0 → Card.totalSize langs = 1) ∧
    (∃ w₁ w₂ : ℚ,
      (Card.langSegments [⟨"a", 7000, "c1"⟩, ⟨"b", 3000, "c2"⟩]).map Prod.snd =
          [w₁, w₂] ∧
        3 * w₁ = 7 * w₂ ∧ w₁ = 7 / 10 * Card.barWidth ∧
        w₂ = 3 / 10 * Card.barWidth) := by
  refine ⟨fun langs => Card.segmentsGo_map_snd _ 0 langs, fun langs i h => ?_, ?_, ?_⟩
  · have := Card.segmentsGo_get_fst (Card.totalSize langs) langs 0 i h
    simpa [Card.langSegments] using this
  · intro langs h
    have hrfl : Card.totalSize langs =
        if (langs.map fun l => l.size).sum = 0 then 1
        else (((langs.map fun l => l.size).sum : ℕ) : ℚ) := by
      simp only [Card.totalSize]
    rw [hrfl, if_pos h]
  · refine ⟨7 / 10 * Card.barWidth, 3 / 10 * Card.barWidth, ?_, by ring, rfl, rfl⟩
    simp [Card.langSegments, Card.segmentsGo, Card.totalSize]
    norm_num

/-- C7 witness: part 3 of the theorem applied to the empty language list,
whose total size is zero. -/
theorem claim_C7_langBar_witness : Card.totalSize [] = 1 :=
  claim_C7_langBar.2.2.1 [] rfl

namespace Github

theorem alGet_cons {κ α : Type} [DecidableEq κ] (k₀ : κ) (v₀ : α)
    (rest : List (κ × α)) (k' : κ) :
    alGet ((k₀, v₀) :: rest) k' = if k₀ = k' then some v₀ else alGet rest k' := by
  by_cases h : k₀ = k'
  · subst h
    rw [alGet, List.find?_cons_of_pos _ (by simp), if_pos rfl]
    rfl
  · rw [alGet, List.find?_cons_of_neg _ (by simp [h]), if_neg h]
    rfl

theorem alSet_cons {κ α : Type} [DecidableEq κ] (k₀ : κ) (v₀ : α)
    (rest : List (κ × α)) (k : κ) (v : α) :
    alSet ((k₀, v₀) :: rest) k v =
      if k₀ = k then (k, v) :: rest else (k₀, v₀) :: alSet rest k v := rfl

theorem alDelete_cons {κ α : Type} [DecidableEq κ] (k₀ : κ) (v₀ : α)
    (rest : List (κ × α)) (k : κ) :
    alDelete ((k₀, v₀) :: rest) k =
      if k₀ = k then rest else (k₀, v₀) :: alDelete rest k := rfl

theorem alGet_set {κ α : Type} [DecidableEq κ] (m : List (κ × α)) (k k' : κ) (v : α) :
    alGet (alSet m k v) k' = if k' = k then some v else alGet m k' := by
  induction m with
  | nil =>
    by_cases h : k' = k
    · subst h; simp [alSet, alGet_cons]
    · simp [alSet, alGet_cons, h, Ne.symm h, alGet]
  | cons p rest ih =>
    obtain ⟨k₀, v₀⟩ := p
    rw [alSet_cons]
    by_cases h0 : k₀ = k
    · subst h0
      by_cases h : k' = k₀
      · subst h; simp [alGet_cons]
      · simp [alGet_cons, h, Ne.symm h]
    · rw [if_neg h0, alGet_cons, alGet_cons, ih]
      by_cases h1 : k₀ = k'
      · subst h1
        rw [if_pos rfl, if_neg (fun he => h0 he), if_pos rfl]
      · by_cases h2 : k' = k <;> simp [h1, h2, h0]

theorem alGet_set_self {κ α : Type} [DecidableEq κ] (m : List (κ × α)) (k : κ) (v : α) :
    alGet (alSet m k v) k = some v := by
  rw [alGet_set, if_pos rfl]

theorem alGet_set_ne {κ α : Type} [DecidableEq κ] (m : List (κ × α)) {k k' : κ} (v : α)
    (h : k' ≠ k) : alGet (alSet m k v) k' = alGet m k' := by
  rw [alGet_set, if_neg h]

theorem alGet_delete_ne {κ α : Type} [DecidableEq κ] (m : List (κ × α)) {k k' : κ}
    (h : k' ≠ k) : alGet (alDelete m k) k' = alGet m k' := by
  induction m with
  | nil => rfl
  | cons p rest ih =>
    obtain ⟨k₀, v₀⟩ := p
    rw [alDelete_cons]
    by_cases h0 : k₀ = k
    · subst h0
      rw [if_pos rfl, alGet_cons, if_neg (fun he => h he.symm)]
    · rw [if_neg h0, alGet_cons, alGet_cons, ih]

end Github

/-- C3.  With no token configured: (1) the fetch body fails with
`MissingCredentials` having issued zero upstream requests — `getHeaders()`
throws while the first `fetch`'s arguments are evaluated — for every
language flag, upstream oracle and avatar outcome; (2) at the call level,
for every state whose cache has no entry for the key (and a free slot
under the in-flight ceiling), every subject handle and every flag, the
caller receives a promise already rejected with `MissingCredentials`. -/
theorem claim_C3_missingCredentials :
    (∀ (includeLanguages : Bool) (oracle : ℕ → Github.UpstreamResponse)
        (avatarResult : Option String),
      Github.fetchBody none includeLanguages oracle avatarResult =
        (0, .error .MissingCredentials)) ∧
    (∀ (s : Github.SvcState) (username : String) (includeLanguages : Bool),
      Github.alGet s.cache (Github.mkCacheKey username includeLanguages) = none →
      s.inFlightCount < Github.maxInFlight →
      (Github.stepCall s username includeLanguages none none).2 =
          .promise s.nextId ∧
        Github.promiseResult
            (Github.stepCall s username includeLanguages none none).1 s.nextId =
          some (.error .MissingCredentials)) := by
  refine ⟨fun _ _ _ => rfl, fun s username il h1 h2 => ?_⟩
  have hg : Github.getCacheStep s (Github.mkCacheKey username il) = (s, none) := by
    simp [Github.getCacheStep, h1]
  constructor
  · simp [Github.stepCall, Github.stepCallStart, Github.stepCallResume, hg, h1,
      Github.launch, if_neg (not_le.2 h2)]
  · simp [Github.stepCall, Github.stepCallStart, Github.stepCallResume, hg, h1,
      Github.launch, if_neg (not_le.2 h2), Github.promiseResult, Github.alGet_set_self]

/-- C2, evaluated at the failing input.  From the empty module state with
no token configured, a first call for `"alice"` receives promise 0,
rejected with `MissingCredentials` — but the cache KEEPS an entry for the
key `"alice:langs"` whose `inFlight` is that settled promise (line 394
stores the placeholder after the `catch` already ran `cache.delete`).  A
second call — even with a token now configured — returns the very same
rejected promise, with the state unchanged: no fresh fetch is started. -/
theorem claim_C2_brokenPlaceholder :
    (Github.stepCall ⟨[], 0, [], 0, 0⟩ "alice" true none none).2 = .promise 0 ∧
    Github.promiseResult
        (Github.stepCall ⟨[], 0, [], 0, 0⟩ "alice" true none none).1 0 =
      some (.error .MissingCredentials) ∧
    Github.alGet (Github.stepCall ⟨[], 0, [], 0, 0⟩ "alice" true none none).1.cache
        "alice:langs" =
      some ⟨1800000, none, some 0⟩ ∧
    Github.stepCall (Github.stepCall ⟨[], 0, [], 0, 0⟩ "alice" true none none).1
        "alice" true (some "token") none =
      ((Github.stepCall ⟨[], 0, [], 0, 0⟩ "alice" true none none).1, .promise 0) := by
  decide

namespace Github

theorem processNodes_user (st : LoopState) (nodes : List RepoNode) :
    (processNodes st nodes).user = st.user := by
  induction nodes generalizing st with
  | nil => rfl
  | cons r rest ih => exact (ih _).trans rfl

theorem processNodes_pageCount (st : LoopState) (nodes : List RepoNode) :
    (processNodes st nodes).pageCount = st.pageCount := by
  induction nodes generalizing st with
  | nil => rfl
  | cons r rest ih => exact (ih _).trans rfl

theorem processNodes_totalStars (st : LoopState) (nodes : List RepoNode) :
    (processNodes st nodes).totalStars =
      st.totalStars + ((nodes.map fun r => r.stargazers).sum) := by
  induction nodes generalizing st with
  | nil => simp [processNodes]
  | cons r rest ih =>
    have := ih ({ st with
      totalStars := st.totalStars + r.stargazers,
      langMap := match st.langMap with
        | none => none
        | some m => some ((r.languages.getD []).foldl processEdge m) })
    simp only [processNodes, List.foldl_cons] at this ⊢
    rw [this]
    simp [Nat.add_assoc]

theorem processNodes_langMap (st : LoopState) (nodes : List RepoNode) :
    (processNodes st nodes).langMap =
      st.langMap.map
        (fun m => nodes.foldl (fun m r => (r.languages.getD []).foldl processEdge m) m) := by
  induction nodes generalizing st with
  | nil => cases hm : st.langMap <;> simp [processNodes, hm]
  | cons r rest ih =>
    have := ih ({ st with
      totalStars := st.totalStars + r.stargazers,
      langMap := match st.langMap with
        | none => none
        | some m => some ((r.languages.getD []).foldl processEdge m) })
    simp only [processNodes, List.foldl_cons] at this ⊢
    rw [this]
    cases hm : st.langMap <;> simp [hm]

theorem applyOk_user (st : LoopState) (u : UserData) :
    (applyOk st u).user = some (st.user.getD u) := by
  simp [applyOk, processNodes_user]

theorem applyOk_pageCount (st : LoopState) (u : UserData) :
    (applyOk st u).pageCount = st.pageCount := by
  simp [applyOk, processNodes_pageCount]

theorem applyOk_totalStars (st : LoopState) (u : UserData) :
    (applyOk st u).totalStars = st.totalStars + pageStars u := by
  simp [applyOk, processNodes_totalStars, pageStars, pageNodes]

theorem applyOk_langMap (st : LoopState) (u : UserData) :
    (applyOk st u).langMap = st.langMap.map (pageFold u) := by
  simp only [applyOk, processNodes_langMap]
  rfl

theorem applyOk_hasNextPage (st : LoopState) (u : UserData) :
    (applyOk st u).hasNextPage =
      if (pageNodes u).length = 0 then false
      else u.repositories.pageInfo.hasNextPage := rfl

theorem mapSizeFor_nil (name : String) : mapSizeFor name [] = 0 := rfl

theorem mapSizeFor_cons (name : String) (e : LangEntry) (rest : List LangEntry) :
    mapSizeFor name (e :: rest) =
      if e.name = name then e.size else mapSizeFor name rest := by
  by_cases h : e.name = name <;> simp [mapSizeFor, List.find?, h]

theorem mapSizeFor_upsert (name nm : String) (sz : ℕ) (c : String)
    (m : List LangEntry) :
    mapSizeFor name (upsertLang m nm sz c) =
      mapSizeFor name m + (if nm = name then sz else 0) := by
  induction m with
  | nil =>
    rw [upsertLang, mapSizeFor_cons]
    by_cases h : nm = name <;> simp [mapSizeFor_nil, h]
  | cons e rest ih =>
    rw [upsertLang]
    by_cases he : e.name = nm
    · rw [if_pos he, mapSizeFor_cons, mapSizeFor_cons]
      by_cases hn : nm = name
      · rw [if_pos (he.trans hn), if_pos (he.trans hn), if_pos hn]
      · have hen : ¬ e.name = name := fun h => hn (he.symm.trans h)
        rw [if_neg hen, if_neg hen, if_neg hn, Nat.add_zero]
    · rw [if_neg he, mapSizeFor_cons, mapSizeFor_cons]
      by_cases hne : e.name = name
      · rw [if_pos hne, if_pos hne]
        have hn : ¬ nm = name := fun h => he (hne.trans h.symm)
        rw [if_neg hn, Nat.add_zero]
      · rw [if_neg hne, if_neg hne, ih]

theorem mapSizeFor_processEdge (name : String) (m : List LangEntry) (e : LangEdge) :
    mapSizeFor name (processEdge m e) = mapSizeFor name m + edgeSizeFor name e := by
  match he : e.node with
  | none => simp [processEdge, edgeSizeFor, he]
  | some nd =>
    by_cases hz : e.size = 0
    · simp [processEdge, edgeSizeFor, he, hz]
    · simp only [processEdge, edgeSizeFor, he, if_neg hz]
      rw [mapSizeFor_upsert]

theorem mapSizeFor_foldl_edges (name : String) :
    ∀ (edges : List LangEdge) (m : List LangEntry),
      mapSizeFor name (edges.foldl processEdge m) =
        mapSizeFor name m + (edges.map (edgeSizeFor name)).sum := by
  intro edges
  induction edges with
  | nil => simp
  | cons e rest ih =>
    intro m
    simp only [List.foldl_cons, List.map_cons, List.sum_cons]
    rw [ih, mapSizeFor_processEdge]
    omega

theorem mapSizeFor_foldl_nodes (name : String) :
    ∀ (nodes : List RepoNode) (m : List LangEntry),
      mapSizeFor name
          (nodes.foldl (fun m r => (r.languages.getD []).foldl processEdge m) m) =
        mapSizeFor name m + (nodes.map (repoSizeFor name)).sum := by
  intro nodes
  induction nodes with
  | nil => simp
  | cons r rest ih =>
    intro m
    simp only [List.foldl_cons, List.map_cons, List.sum_cons]
    rw [ih, mapSizeFor_foldl_edges]
    simp [repoSizeFor]
    omega

theorem mapSizeFor_pageFold (name : String) (u : UserData) (m : List LangEntry) :
    mapSizeFor name (pageFold u m) = mapSizeFor name m + pageSizeFor name u := by
  rw [pageFold, mapSizeFor_foldl_nodes, pageSizeFor]

/-- Every entry of the language map carries a positive size. -/
def sizesPos (m : List LangEntry) : Prop := ∀ e ∈ m, 1 ≤ e.size

theorem sizesPos_upsert {m : List LangEntry} (nm : String) {sz : ℕ} (c : String)
    (h : sizesPos m) (hsz : 1 ≤ sz) : sizesPos (upsertLang m nm sz c) := by
  induction m with
  | nil =>
    intro e he
    simp [upsertLang] at he
    subst he
    exact hsz
  | cons e₀ rest ih =>
    intro e he
    rw [upsertLang] at he
    by_cases h0 : e₀.name = nm
    · rw [if_pos h0] at he
      rcases List.mem_cons.1 he with h1 | h1
      · subst h1
        have := h e₀ (List.mem_cons_self _ _)
        simpa using Nat.le_add_right_of_le this
      · exact h e (List.mem_cons_of_mem _ h1)
    · rw [if_neg h0] at he
      rcases List.mem_cons.1 he with h1 | h1
      · subst h1
        exact h e (List.mem_cons_self _ _)
      · exact ih (fun x hx => h x (List.mem_cons_of_mem _ hx)) e h1

theorem sizesPos_processEdge {m : List LangEntry} (e : LangEdge)
    (h : sizesPos m) : sizesPos (processEdge m e) := by
  match hn : e.node with
  | none => simpa [processEdge, hn] using h
  | some nd =>
    by_cases hz : e.size = 0
    · simpa [processEdge, hn, hz] using h
    · simp only [processEdge, hn, if_neg hz]
      exact sizesPos_upsert nd.name _ h (by omega)

theorem sizesPos_foldl_edges {m : List LangEntry} (edges : List LangEdge)
    (h : sizesPos m) : sizesPos (edges.foldl processEdge m) := by
  induction edges generalizing m with
  | nil => exact h
  | cons e rest ih => exact ih (sizesPos_processEdge e h)

theorem sizesPos_pageFold {m : List LangEntry} (u : UserData)
    (h : sizesPos m) : sizesPos (pageFold u m) := by
  rw [pageFold]
  generalize pageNodes u = nodes
  induction nodes generalizing m with
  | nil => exact h
  | cons r rest ih => exact ih (sizesPos_foldl_edges _ h)

theorem mem_insertDesc {x e : LangEntry} :
    ∀ {l : List LangEntry}, e ∈ insertDesc x l → e = x ∨ e ∈ l := by
  intro l
  induction l with
  | nil => intro h; simpa [insertDesc] using h
  | cons y ys ih =>
    intro h
    rw [insertDesc] at h
    by_cases hc : y.size ≤ x.size
    · rw [if_pos hc] at h
      rcases List.mem_cons.1 h with h1 | h1
      · exact Or.inl h1
      · exact Or.inr h1
    · rw [if_neg hc] at h
      rcases List.mem_cons.1 h with h1 | h1
      · exact Or.inr (h1 ▸ List.mem_cons_self _ _)
      · rcases ih h1 with h2 | h2
        · exact Or.inl h2
        · exact Or.inr (List.mem_cons_of_mem _ h2)

theorem mem_sortDesc {e : LangEntry} :
    ∀ {l : List LangEntry}, e ∈ sortDesc l → e ∈ l := by
  intro l
  induction l with
  | nil => intro h; simpa [sortDesc] using h
  | cons x xs ih =>
    intro h
    rw [sortDesc] at h
    rcases mem_insertDesc h with h1 | h1
    · exact h1 ▸ List.mem_cons_self _ _
    · exact List.mem_cons_of_mem _ (ih h1)

/-- Every element of the rendered top-5 list comes from a map entry. -/
theorem mem_topLanguages {l : Card.LanguageStat} {m : List LangEntry}
    (h : l ∈ topLanguages (some m)) :
    ∃ e ∈ m, l = ⟨e.name, e.size, e.color⟩ := by
  simp only [topLanguages, List.mem_map] at h
  obtain ⟨e, he, hl⟩ := h
  exact ⟨e, mem_sortDesc (List.take_subset 5 _ he), hl.symm⟩

end Github

namespace Github

theorem runPages_fst_le (oracle : ℕ → UpstreamResponse) :
    ∀ (fuel : ℕ) (st : LoopState), (runPages oracle fuel st).1 ≤ fuel := by
  intro fuel
  induction fuel with
  | zero => intro st; simp [runPages]
  | succ fuel ih =>
    intro st
    rw [runPages]
    by_cases hc : st.hasNextPage = true ∧ st.pageCount < maxPages
    · rw [if_pos hc]
      match hp : processResponse { st with pageCount := st.pageCount + 1 }
          (oracle st.pageCount) with
      | .error e => simp
      | .ok st' =>
        simp only []
        have := ih st'
        omega
    · rw [if_neg hc]
      simp

theorem processResponse_ok {st st' : LoopState} {resp : UpstreamResponse}
    (h : processResponse st resp = .ok st') :
    ∃ u, resp = .ok u ∧ st' = applyOk st u := by
  match resp with
  | .httpError status text =>
    rw [processResponse] at h
    by_cases h1 : status = 401
    · rw [if_pos h1] at h; exact absurd h (by simp)
    · rw [if_neg h1] at h
      by_cases h2 : status = 403
      · rw [if_pos h2] at h; exact absurd h (by simp)
      · rw [if_neg h2] at h; exact absurd h (by simp)
  | .gqlErrors msgs => exact absurd h (by simp [processResponse])
  | .noUser => exact absurd h (by simp [processResponse])
  | .ok u =>
    rw [processResponse] at h
    exact ⟨u, rfl, (Except.ok.inj h).symm⟩

/-- Characterisation of a successful run: the final state is the replay of
the `n` consumed pages, and every consumed page got an `ok` response. -/
theorem runPages_ok_inversion (oracle : ℕ → UpstreamResponse) :
    ∀ (fuel : ℕ) (st : LoopState) (n : ℕ) (stf : LoopState),
      runPages oracle fuel st = (n, .ok stf) →
      stf = applyPages oracle n st ∧
        ∀ i, st.pageCount ≤ i → i < st.pageCount + n → ∃ u, oracle i = .ok u := by
  intro fuel
  induction fuel with
  | zero =>
    intro st n stf h
    rw [runPages] at h
    obtain ⟨h1, h2⟩ := Prod.mk.injEq _ _ _ _ ▸ h
    cases h1
    cases h2
    exact ⟨rfl, by omega⟩
  | succ fuel ih =>
    intro st n stf h
    rw [runPages] at h
    by_cases hc : st.hasNextPage = true ∧ st.pageCount < maxPages
    · rw [if_pos hc] at h
      match hp : processResponse { st with pageCount := st.pageCount + 1 }
          (oracle st.pageCount) with
      | .error e =>
        rw [hp] at h
        obtain ⟨h1, h2⟩ := Prod.mk.injEq _ _ _ _ ▸ h
        exact absurd h2 (by simp)
      | .ok st₂ =>
        rw [hp] at h
        simp only [] at h
        obtain ⟨h1, h2⟩ := Prod.mk.injEq _ _ _ _ ▸ h
        obtain ⟨u, hu, hst₂⟩ := processResponse_ok hp
        have hrec : runPages oracle fuel st₂ = ((runPages oracle fuel st₂).1, .ok stf) := by
          rw [Prod.mk.injEq]
          exact ⟨rfl, h2⟩
        obtain ⟨hf, hall⟩ := ih st₂ _ stf hrec
        have hpc₂ : st₂.pageCount = st.pageCount + 1 := by
          rw [hst₂, applyOk_pageCount]
        constructor
        · rw [hf, ← h1, applyPages, hu]
          simp only []
          rw [← hst₂]
        · intro i hi1 hi2
          by_cases hi : i = st.pageCount
          · exact ⟨u, hi ▸ hu⟩
          · refine hall i (by omega) (by omega)
    · rw [if_neg hc] at h
      obtain ⟨h1, h2⟩ := Prod.mk.injEq _ _ _ _ ▸ h
      cases h1
      cases h2
      exact ⟨rfl, by omega⟩

end Github

namespace Github

theorem applyPages_user_some (oracle : ℕ → UpstreamResponse) :
    ∀ (n : ℕ) (st : LoopState) (u : UserData), st.user = some u →
      (applyPages oracle n st).user = some u := by
  intro n
  induction n with
  | zero => intro st u h; exact h
  | succ k ih =>
    intro st u h
    rw [applyPages]
    match oracle st.pageCount with
    | .ok u' =>
      refine ih _ u ?_
      rw [applyOk_user]
      simp [h]
    | .httpError status text => exact h
    | .gqlErrors msgs => exact h
    | .noUser => exact h

theorem applyPages_user (oracle : ℕ → UpstreamResponse) (us : ℕ → UserData)
    (n : ℕ) (st : LoopState) (hn : 1 ≤ n) (hu : st.user = none)
    (h0 : oracle st.pageCount = .ok (us st.pageCount)) :
    (applyPages oracle n st).user = some (us st.pageCount) := by
  match n, hn with
  | k + 1, _ =>
    rw [applyPages, h0]
    simp only []
    refine applyPages_user_some oracle k _ _ ?_
    rw [applyOk_user]
    simp [hu]

theorem applyPages_totalStars (oracle : ℕ → UpstreamResponse) (us : ℕ → UserData) :
    ∀ (n : ℕ) (st : LoopState),
      (∀ i, st.pageCount ≤ i → i < st.pageCount + n → oracle i = .ok (us i)) →
      (applyPages oracle n st).totalStars =
        st.totalStars + ∑ i ∈ Finset.range n, pageStars (us (st.pageCount + i)) := by
  intro n
  induction n with
  | zero => intro st _; simp [applyPages]
  | succ k ih =>
    intro st hor
    have h0 : oracle st.pageCount = .ok (us st.pageCount) :=
      hor st.pageCount le_rfl (by omega)
    rw [applyPages, h0]
    simp only []
    set st₂ := applyOk { st with pageCount := st.pageCount + 1 } (us st.pageCount)
      with hst₂
    have hpc : st₂.pageCount = st.pageCount + 1 := by rw [hst₂, applyOk_pageCount]
    have hstars : st₂.totalStars = st.totalStars + pageStars (us st.pageCount) := by
      rw [hst₂, applyOk_totalStars]
    have := ih st₂ (by intro i h1 h2; exact hor i (by omega) (by omega))
    rw [this, hstars, hpc]
    rw [Finset.sum_range_succ']
    simp only [Nat.add_zero]
    have hsh : ∀ i, st.pageCount + 1 + i = st.pageCount + (i + 1) := by omega
    rw [Finset.sum_congr rfl (fun i _ => by rw [hsh i])]
    omega

theorem applyPages_langMap_none (oracle : ℕ → UpstreamResponse) :
    ∀ (n : ℕ) (st : LoopState), st.langMap = none →
      (applyPages oracle n st).langMap = none := by
  intro n
  induction n with
  | zero => intro st h; exact h
  | succ k ih =>
    intro st h
    rw [applyPages]
    match oracle st.pageCount with
    | .ok u' =>
      refine ih _ ?_
      rw [applyOk_langMap]
      simp [h]
    | .httpError status text => exact h
    | .gqlErrors msgs => exact h
    | .noUser => exact h

theorem applyPages_langMap (oracle : ℕ → UpstreamResponse) (us : ℕ → UserData) :
    ∀ (n : ℕ) (st : LoopState) (m : List LangEntry),
      (∀ i, st.pageCount ≤ i → i < st.pageCount + n → oracle i = .ok (us i)) →
      st.langMap = some m →
      ∃ mf, (applyPages oracle n st).langMap = some mf ∧
        (∀ name, mapSizeFor name mf =
          mapSizeFor name m + ∑ i ∈ Finset.range n, pageSizeFor name (us (st.pageCount + i))) ∧
        (sizesPos m → sizesPos mf) := by
  intro n
  induction n with
  | zero =>
    intro st m _ hm
    exact ⟨m, hm, fun name => by simp, fun h => h⟩
  | succ k ih =>
    intro st m hor hm
    have h0 : oracle st.pageCount = .ok (us st.pageCount) :=
      hor st.pageCount le_rfl (by omega)
    rw [applyPages, h0]
    simp only []
    set st₂ := applyOk { st with pageCount := st.pageCount + 1 } (us st.pageCount)
      with hst₂
    have hpc : st₂.pageCount = st.pageCount + 1 := by rw [hst₂, applyOk_pageCount]
    have hm₂ : st₂.langMap = some (pageFold (us st.pageCount) m) := by
      rw [hst₂, applyOk_langMap]
      simp [hm]
    obtain ⟨mf, hmf, hsize, hpos⟩ :=
      ih st₂ (pageFold (us st.pageCount) m)
        (by intro i h1 h2; exact hor i (by omega) (by omega)) hm₂
    refine ⟨mf, hmf, fun name => ?_, fun h => hpos (sizesPos_pageFold _ h)⟩
    rw [hsize name, mapSizeFor_pageFold, hpc]
    rw [Finset.sum_range_succ']
    simp only [Nat.add_zero]
    have hsh : ∀ i, st.pageCount + 1 + i = st.pageCount + (i + 1) := by omega
    rw [Finset.sum_congr rfl (fun i _ => by rw [hsh i])]
    omega

end Github

namespace Github

theorem applyOk_hasNextPage_true {u : UserData}
    (h1 : u.repositories.pageInfo.hasNextPage = true) (h2 : pageNodes u ≠ [])
    (st : LoopState) : (applyOk st u).hasNextPage = true := by
  rw [applyOk_hasNextPage, if_neg (by simpa using h2), h1]

theorem applyOk_hasNextPage_false {u : UserData}
    (h : u.repositories.pageInfo.hasNextPage = false ∨ pageNodes u = [])
    (st : LoopState) : (applyOk st u).hasNextPage = false := by
  rw [applyOk_hasNextPage]
  rcases h with h | h
  · by_cases hl : (pageNodes u).length = 0
    · rw [if_pos hl]
    · rw [if_neg hl, h]
  · rw [if_pos (by simp [h])]

/-- A run whose oracle keeps reporting further pages performs exactly
`fuel` iterations (10 from the top) and ends without error. -/
theorem runPages_full (oracle : ℕ → UpstreamResponse) :
    ∀ (fuel : ℕ) (st : LoopState),
      st.hasNextPage = true → st.pageCount + fuel = maxPages →
      (∀ i, i < maxPages → contOk (oracle i)) →
      ∃ stf, runPages oracle fuel st = (fuel, .ok stf) ∧
        (st.user.isSome → stf.user.isSome) ∧ (1 ≤ fuel → stf.user.isSome) := by
  intro fuel
  induction fuel with
  | zero =>
    intro st h1 h2 h3
    exact ⟨st, rfl, fun h => h, by omega⟩
  | succ f ih =>
    intro st h1 h2 h3
    obtain ⟨u, hou, hnext, hnodes⟩ := h3 st.pageCount (by omega)
    rw [runPages, if_pos ⟨h1, by omega⟩, hou]
    simp only [processResponse]
    set st₂ := applyOk { st with pageCount := st.pageCount + 1 } u with hst₂
    have hpc : st₂.pageCount = st.pageCount + 1 := by rw [hst₂, applyOk_pageCount]
    have hn₂ : st₂.hasNextPage = true := applyOk_hasNextPage_true hnext hnodes _
    have husome : st₂.user.isSome := by
      rw [hst₂, applyOk_user]
      simp
    obtain ⟨stf, hrec, hmono, _⟩ := ih st₂ hn₂ (by omega) h3
    refine ⟨stf, ?_, fun _ => hmono husome, fun _ => hmono husome⟩
    rw [hrec]

/-- A run that continues for `k` pages and then receives a page with no
next page (or no repositories) stops after exactly `k + 1` requests,
without error. -/
theorem runPages_stop (oracle : ℕ → UpstreamResponse) :
    ∀ (k : ℕ), ∀ (fuel : ℕ) (st : LoopState),
      st.hasNextPage = true → st.pageCount + fuel = maxPages →
      st.pageCount + k < maxPages →
      (∀ i, st.pageCount ≤ i → i < st.pageCount + k → contOk (oracle i)) →
      stopOk (oracle (st.pageCount + k)) →
      ∃ stf, runPages oracle fuel st = (k + 1, .ok stf) ∧ stf.user.isSome := by
  intro k
  induction k with
  | zero =>
    intro fuel st h1 h2 h3 _ h5
    obtain ⟨u, hou, hstop⟩ := h5
    rw [Nat.add_zero] at hou
    obtain ⟨f, rfl⟩ : ∃ f, fuel = f + 1 := ⟨fuel - 1, by omega⟩
    · rw [runPages, if_pos ⟨h1, by omega⟩, hou]
      simp only [processResponse]
      set st₂ := applyOk { st with pageCount := st.pageCount + 1 } u with hst₂
      have hn₂ : st₂.hasNextPage = false := applyOk_hasNextPage_false hstop _
      have husome : st₂.user.isSome := by
        rw [hst₂, applyOk_user]
        simp
      have hend : runPages oracle f st₂ = (0, .ok st₂) := by
        match f with
        | 0 => rfl
        | f' + 1 =>
          rw [runPages, if_neg]
          intro hcon
          rw [hn₂] at hcon
          exact absurd hcon.1 (by simp)
      rw [hend]
      exact ⟨st₂, rfl, husome⟩
  | succ k ih =>
    intro fuel st h1 h2 h3 h4 h5
    obtain ⟨u, hou, hnext, hnodes⟩ := h4 st.pageCount le_rfl (by omega)
    obtain ⟨f, rfl⟩ : ∃ f, fuel = f + 1 := ⟨fuel - 1, by omega⟩
    · rw [runPages, if_pos ⟨h1, by omega⟩, hou]
      simp only [processResponse]
      set st₂ := applyOk { st with pageCount := st.pageCount + 1 } u with hst₂
      have hpc : st₂.pageCount = st.pageCount + 1 := by rw [hst₂, applyOk_pageCount]
      have hn₂ : st₂.hasNextPage = true := applyOk_hasNextPage_true hnext hnodes _
      obtain ⟨stf, hrec, husome⟩ := ih f st₂ hn₂ (by omega) (by omega)
        (by intro i hi1 hi2; exact h4 i (by omega) (by omega))
        (by rw [hpc]; have : st.pageCount + 1 + k = st.pageCount + (k + 1) := by omega
            rw [this]; exact h5)
      rw [hrec]
      exact ⟨stf, rfl, husome⟩

end Github

namespace Github

theorem fetchBody_ok_inversion {tok : String} {il : Bool}
    {oracle : ℕ → UpstreamResponse} {avatar : Option String}
    {n : ℕ} {profile : ProfileData}
    (h : fetchBody (some tok) il oracle avatar = (n, .ok profile)) :
    ∃ stf u, runPages oracle maxPages (initState il) = (n, .ok stf) ∧
      stf.user = some u ∧
      profile = buildProfile u avatar stf.totalStars stf.langMap := by
  rcases hrun : runPages oracle maxPages (initState il) with ⟨nr, res⟩
  rw [fetchBody] at h
  simp only [hrun] at h
  match res, h with
  | .ok stf, h =>
    simp only [] at h
    match hu : stf.user, h with
    | some u, h =>
      simp only [] at h
      obtain ⟨h1, h2⟩ := Prod.mk.injEq _ _ _ _ ▸ h
      exact ⟨stf, u, by rw [h1], hu, (Except.ok.inj h2).symm⟩

theorem fetchBody_of_run {tok : String} {il : Bool}
    {oracle : ℕ → UpstreamResponse} {avatar : Option String}
    {n : ℕ} {stf : LoopState} {u : UserData}
    (hrun : runPages oracle maxPages (initState il) = (n, .ok stf))
    (hu : stf.user = some u) :
    fetchBody (some tok) il oracle avatar =
      (n, .ok (buildProfile u avatar stf.totalStars stf.langMap)) := by
  rw [fetchBody]
  simp only [hrun, hu]

end Github

/-- C6.  The paginated fetch issues at most 10 page requests for every
token, flag and upstream behaviour; an upstream that keeps reporting a
next page (with non-empty pages) is cut off at exactly 10 requests and
still yields a successful (partial) snapshot; and a page that reports no
next page — or returns no repositories — after `k` continuing pages stops
the loop at exactly `k + 1` requests, also successfully. -/
theorem claim_C6_paginationBound :
    (∀ (token : Option String) (il : Bool) (oracle : ℕ → Github.UpstreamResponse)
        (avatar : Option String),
      (Github.fetchBody token il oracle avatar).1 ≤ 10) ∧
    (∀ (tok : String) (il : Bool) (oracle : ℕ → Github.UpstreamResponse)
        (avatar : Option String),
      (∀ i, i < 10 → Github.contOk (oracle i)) →
      ∃ profile, Github.fetchBody (some tok) il oracle avatar = (10, .ok profile)) ∧
    (∀ (tok : String) (il : Bool) (oracle : ℕ → Github.UpstreamResponse)
        (avatar : Option String) (k : ℕ), k < 10 →
      (∀ i, i < k → Github.contOk (oracle i)) →
      Github.stopOk (oracle k) →
      ∃ profile, Github.fetchBody (some tok) il oracle avatar = (k + 1, .ok profile)) := by
  refine ⟨?_, ?_, ?_⟩
  · intro token il oracle avatar
    match token with
    | none => simp [Github.fetchBody]
    | some tok =>
      have hle := Github.runPages_fst_le oracle Github.maxPages (Github.initState il)
      rcases hrun : Github.runPages oracle Github.maxPages (Github.initState il)
        with ⟨nr, res⟩
      rw [hrun] at hle
      rw [Github.fetchBody]
      simp only [hrun]
      match res with
      | .error e => exact hle
      | .ok stf =>
        simp only []
        rcases hu : stf.user with _ | u <;> simp only [hu] <;> exact hle
  · intro tok il oracle avatar hcont
    obtain ⟨stf, hrun, _, husome⟩ :=
      Github.runPages_full oracle Github.maxPages (Github.initState il) rfl rfl hcont
    obtain ⟨u, hu⟩ := Option.isSome_iff_exists.1 (husome (by decide))
    exact ⟨_, Github.fetchBody_of_run hrun hu⟩
  · intro tok il oracle avatar k hk hcont hstop
    obtain ⟨stf, hrun, husome⟩ :=
      Github.runPages_stop oracle k Github.maxPages (Github.initState il) rfl rfl
        (by simpa [Github.initState] using hk)
        (by intro i h1 h2; exact hcont i (by simpa [Github.initState] using h2))
        (by simpa [Github.initState] using hstop)
    obtain ⟨u, hu⟩ := Option.isSome_iff_exists.1 husome
    exact ⟨_, Github.fetchBody_of_run hrun hu⟩

/-- C6 witness: an upstream that always reports a next page is cut off at
10 requests (here every page is the same single-repository page). -/
theorem claim_C6_paginationBound_witness :
    ∃ profile,
      Github.fetchBody (some "tok") false
          (fun _ => .ok
            { login := "alice", name := none, avatarUrl := "u", bio := none,
              pronouns := none, twitterUsername := none, openPRs := none,
              closedPRs := none, mergedPRs := none, openIssues := none,
              closedIssues := none, commitContributions := none,
              repositories :=
                { totalCount := 1,
                  pageInfo := { hasNextPage := true, endCursor := none },
                  nodes := some [{ stargazers := 3, languages := none }] } })
          none = (10, .ok profile) :=
  claim_C6_paginationBound.2.1 "tok" false _ none
    (fun i _ => ⟨_, rfl, rfl, by decide⟩)

/-- C8.  On a successful multi-page fetch consuming `n` pages, every
subject identity field of the snapshot (handle, display name, avatar
reference, bio, pronouns, secondary handle) equals the corresponding
field of the FIRST page's payload — later pages never overwrite them —
while the star total is the sum of every fetched page's stars, and (with
languages enabled) each language's accumulated size is the sum of every
fetched page's contribution to it. -/
theorem claim_C8_firstPageIdentity
    (tok : String) (il : Bool) (oracle : ℕ → Github.UpstreamResponse)
    (avatar : Option String) (us : ℕ → Github.UserData)
    (n : ℕ) (profile : Github.ProfileData)
    (hrun : Github.fetchBody (some tok) il oracle avatar = (n, .ok profile))
    (hus : ∀ i, i < n → oracle i = .ok (us i)) :
    1 ≤ n ∧
    profile.user.login = (us 0).login ∧
    profile.user.name = (us 0).name ∧
    profile.user.avatarUrl = (us 0).avatarUrl ∧
    profile.user.bio = (us 0).bio ∧
    profile.user.pronouns = (us 0).pronouns ∧
    profile.user.twitter = (us 0).twitterUsername ∧
    profile.stats.stars = ∑ i ∈ Finset.range n, Github.pageStars (us i) ∧
    (il = true → ∃ m,
      (Github.applyPages oracle n (Github.initState il)).langMap = some m ∧
      (∀ name, Github.mapSizeFor name m =
        ∑ i ∈ Finset.range n, Github.pageSizeFor name (us i)) ∧
      profile.languages = Github.topLanguages (some m)) := by
  obtain ⟨stf, u, hrp, hstfu, hprof⟩ := Github.fetchBody_ok_inversion hrun
  obtain ⟨hstf, _⟩ := Github.runPages_ok_inversion oracle Github.maxPages
    (Github.initState il) n stf hrp
  have hpc0 : (Github.initState il).pageCount = 0 := rfl
  have hn1 : 1 ≤ n := by
    by_contra hc
    have hn0 : n = 0 := by omega
    rw [hn0] at hstf
    rw [hstf] at hstfu
    simp [Github.applyPages, Github.initState] at hstfu
  have huser : stf.user = some (us 0) := by
    rw [hstf]
    exact Github.applyPages_user oracle us n (Github.initState il) hn1 rfl
      (hus 0 (by omega))
  have hueq : u = us 0 := by
    rw [huser] at hstfu
    exact (Option.some.inj hstfu).symm
  subst hueq
  have hor : ∀ i, (Github.initState il).pageCount ≤ i →
      i < (Github.initState il).pageCount + n → oracle i = .ok (us i) := by
    intro i _ h2
    exact hus i (by omega)
  have hstars : stf.totalStars = ∑ i ∈ Finset.range n, Github.pageStars (us i) := by
    rw [hstf, Github.applyPages_totalStars oracle us n (Github.initState il) hor]
    simp [Github.initState]
  refine ⟨hn1, by rw [hprof]; rfl, by rw [hprof]; rfl, by rw [hprof]; rfl,
    by rw [hprof]; rfl, by rw [hprof]; rfl, by rw [hprof]; rfl,
    by rw [hprof]; exact hstars, ?_⟩
  intro hil
  have hm0 : (Github.initState il).langMap = some [] := by
    simp [Github.initState, hil]
  obtain ⟨mf, hmf, hsize, _⟩ :=
    Github.applyPages_langMap oracle us n (Github.initState il) [] hor hm0
  refine ⟨mf, hmf, fun name => ?_, ?_⟩
  · rw [hsize name, Github.mapSizeFor_nil]
    simp [Github.initState]
  · rw [hprof]
    have : stf.langMap = some mf := by rw [hstf]; exact hmf
    simp [Github.buildProfile, this]

/-- C8 witness: the theorem applied to a concrete single-page fetch. -/
theorem claim_C8_firstPageIdentity_witness :
    Github.sampleProfile.stats.stars =
      ∑ i ∈ Finset.range 1, Github.pageStars ((fun _ => Github.samplePage) i) :=
  (claim_C8_firstPageIdentity "t" true (fun _ => .ok Github.samplePage) none
    (fun _ => Github.samplePage) 1 Github.sampleProfile (by decide)
    (fun i _ => rfl)).2.2.2.2.2.2.2.1

/-- C9.  Zero-size (or node-less) language edges are skipped during
aggregation: every language stat of a successful snapshot has size at
least 1, and a language whose every fetched-page contribution is zero
(for instance one present upstream only with size-0 edges) never appears
in the snapshot's language list. -/
theorem claim_C9_zeroSizeSkipped
    (tok : String) (il : Bool) (oracle : ℕ → Github.UpstreamResponse)
    (avatar : Option String) (us : ℕ → Github.UserData)
    (n : ℕ) (profile : Github.ProfileData)
    (hrun : Github.fetchBody (some tok) il oracle avatar = (n, .ok profile))
    (hus : ∀ i, i < n → oracle i = .ok (us i)) :
    (∀ l ∈ profile.languages, 1 ≤ l.size) ∧
    (∀ name, (∀ i, i < n → Github.pageSizeFor name (us i) = 0) →
      ∀ l ∈ profile.languages, l.name ≠ name) := by
  obtain ⟨stf, u, hrp, hstfu, hprof⟩ := Github.fetchBody_ok_inversion hrun
  obtain ⟨hstf, _⟩ := Github.runPages_ok_inversion oracle Github.maxPages
    (Github.initState il) n stf hrp
  have hor : ∀ i, (Github.initState il).pageCount ≤ i →
      i < (Github.initState il).pageCount + n → oracle i = .ok (us i) := by
    intro i _ h2
    exact hus i (by simpa [Github.initState] using h2)
  have hlang : profile.languages = Github.topLanguages stf.langMap := by
    rw [hprof]
    rfl
  cases il with
  | false =>
    have hnone : stf.langMap = none := by
      rw [hstf]
      exact Github.applyPages_langMap_none oracle n _ (by simp [Github.initState])
    rw [hlang, hnone]
    constructor
    · intro l hl
      simp [Github.topLanguages] at hl
    · intro name _ l hl
      simp [Github.topLanguages] at hl
  | true =>
    obtain ⟨mf, hmf, hsize, hpos⟩ :=
      Github.applyPages_langMap oracle us n (Github.initState true) []
        hor (by simp [Github.initState])
    have hsome : stf.langMap = some mf := by rw [hstf]; exact hmf
    have hposf : Github.sizesPos mf := hpos (fun e he => by simp at he)
    rw [hlang, hsome]
    constructor
    · intro l hl
      obtain ⟨e, hem, hle⟩ := Github.mem_topLanguages hl
      rw [hle]
      exact hposf e hem
    · intro name hzero l hl hname
      obtain ⟨e, hem, hle⟩ := Github.mem_topLanguages hl
      have hename : e.name = name := by rw [hle] at hname; exact hname
      have hz : Github.mapSizeFor name mf = 0 := by
        rw [hsize name, Github.mapSizeFor_nil]
        have : ∀ i ∈ Finset.range n,
            Github.pageSizeFor name (us ((Github.initState true).pageCount + i)) = 0 := by
          intro i hi
          exact hzero _ (by simpa [Github.initState] using Finset.mem_range.1 hi)
        rw [Finset.sum_congr rfl this]
        simp
      rw [Github.mapSizeFor] at hz
      match hfind : mf.find? (fun e => e.name = name) with
      | some e' =>
        rw [hfind] at hz
        simp only [] at hz
        have := hposf e' (List.mem_of_find?_eq_some hfind)
        omega
      | none =>
        have := List.find?_eq_none.1 hfind e hem
        simp [hename] at this

/-- C9 witness: the size-5 `"TS"` entry of the sample snapshot (whose
size-0 `"Zero"` edge was skipped) has size at least 1. -/
theorem claim_C9_zeroSizeSkipped_witness :
    1 ≤ (Card.LanguageStat.mk "TS" 5 "#ccc").size :=
  (claim_C9_zeroSizeSkipped "t" true (fun _ => .ok Github.samplePage) none
    (fun _ => Github.samplePage) 1 Github.sampleProfile (by decide)
    (fun i _ => rfl)).1 ⟨"TS", 5, "#ccc"⟩ (by decide)

/-- C1, evaluated at the failing interleaving (`raceState`): after call
A launches fetch 0 for `"alice:langs"`, call C's shared-cache hit
overwrites the in-flight placeholder, and call B — resuming past its own
memory-cache miss with a shared-cache miss — finds no `inFlight` marker
and launches fetch 1 for the same key.  In the resulting state promises
0 and 1 are both pending for `"alice:langs"`, two upstream fetches are
counted in flight, and the cache entry's in-flight marker points at
fetch 1, orphaning fetch 0 — so waiters handed promise 0 and waiters
handed promise 1 need not receive the same result. -/
theorem claim_C1_dedupRace :
    Github.pendingFor Github.raceState 0 "alice:langs" ∧
    Github.pendingFor Github.raceState 1 "alice:langs" ∧
    Github.raceState.inFlightCount = 2 ∧
    Github.alGet Github.raceState.cache "alice:langs" =
      some ⟨1800000, none, some 1⟩ := by
  unfold Github.pendingFor
  exact ⟨by decide, by decide, by decide, by decide⟩

/-- C3 witness: the call-level statement applied at the empty module
state. -/
theorem claim_C3_missingCredentials_witness :
    (Github.stepCall ⟨[], 0, [], 0, 0⟩ "bob" false none none).2 = .promise 0 ∧
      Github.promiseResult
          (Github.stepCall ⟨[], 0, [], 0, 0⟩ "bob" false none none).1 0 =
        some (.error .MissingCredentials) :=
  claim_C3_missingCredentials.2 ⟨[], 0, [], 0, 0⟩ "bob" false (by decide) (by decide)
